import Mathlib

/-!
# A verification development for `hexgrid.go`

Shallow embedding of the hexagonal-grid library (`src/hexgrid.go`).

* `int64` values are integers (`Int`); every `int64` operation of the source
  is followed by `wrap64`, the two's-complement wrap-around of Go.
* `float64` values are elements of an ordered field `F` with a floor function
  (exact arithmetic: no rounding error).  The model is executable at `F = ℚ`.
* A float division whose divisor may be zero has the results of IEEE: a finite
  quotient, an infinity or a NaN (`Slope`).
-/

set_option linter.unusedSectionVars false
set_option linter.unusedVariables false

namespace Hexgrid

/-! ## `int64` -/

/-- Smallest `int64`. -/
def minInt64 : Int := -9223372036854775808

/-- Largest `int64`. -/
def maxInt64 : Int := 9223372036854775807

/-- Two's-complement wrap-around of an integer into the `int64` range. -/
def wrap64 (x : Int) : Int :=
  (x + 9223372036854775808) % 18446744073709551616 - 9223372036854775808

/-- The integer is a value of type `int64`. -/
def inInt64 (x : Int) : Prop :=
  -9223372036854775808 ≤ x ∧ x ≤ 9223372036854775807

instance (x : Int) : Decidable (inInt64 x) := by
  unfold inInt64; exact inferInstance

/-! ## Data model -/

/-- `type Point struct { x, y float64 }`. -/
structure Point (F : Type) where
  x : F
  y : F
deriving DecidableEq

/-- `type Hex struct { q, r int64 }`. -/
structure Hex where
  q : Int
  r : Int
deriving DecidableEq, Repr

/-- `type FractionalHex struct { q, r float64 }`. -/
structure FractionalHex (F : Type) where
  q : F
  r : F

/-- Both fields of the hex are `int64` values. -/
def Hex.valid (hex : Hex) : Prop := inInt64 hex.q ∧ inInt64 hex.r

instance (hex : Hex) : Decidable hex.valid := by
  unfold Hex.valid; exact inferInstance

/-- `func max(a int64, b int64) int64`. -/
def max (a b : Int) : Int := if a ≥ b then a else b

/-- `func min(a int64, b int64) int64`. -/
def min (a b : Int) : Int := if a ≤ b then a else b

/-- `func MakePoint(x float64, y float64) Point`. -/
def MakePoint {F : Type} (x y : F) : Point F := { x := x, y := y }

/-- `func (point Point) X() float64`. -/
def Point.X {F : Type} (point : Point F) : F := point.x

/-- `func (point Point) Y() float64`. -/
def Point.Y {F : Type} (point : Point F) : F := point.y

/-- `func MakeHex(q int64, r int64) Hex`. -/
def MakeHex (q r : Int) : Hex := { q := q, r := r }

/-- `func (hex Hex) Q() int64`. -/
def Hex.Q (hex : Hex) : Int := hex.q

/-- `func (hex Hex) R() int64`. -/
def Hex.R (hex : Hex) : Int := hex.r

/-- `func (hex Hex) S() int64`: `-(hex.q + hex.r)` in `int64` arithmetic. -/
def Hex.S (hex : Hex) : Int := wrap64 (-(wrap64 (hex.q + hex.r)))

/-- `func MakeFractionalHex(q float64, r float64) FractionalHex`. -/
def MakeFractionalHex {F : Type} (q r : F) : FractionalHex F := { q := q, r := r }

section Exact

variable {F : Type} [LinearOrderedField F] [FloorRing F]

/-- `func (fhex FractionalHex) Q() float64`. -/
def FractionalHex.Q (fhex : FractionalHex F) : F := fhex.q

/-- `func (fhex FractionalHex) R() float64`. -/
def FractionalHex.R (fhex : FractionalHex F) : F := fhex.r

/-- `func (fhex FractionalHex) S() float64`. -/
def FractionalHex.S (fhex : FractionalHex F) : F := -(fhex.q + fhex.r)

/-- The conversion `int64(val)` of a float: the fraction is discarded
(truncation towards zero).  For a value outside the `int64` range Go leaves the
result implementation-dependent; the model wraps it. -/
def toInt64 (val : F) : Int :=
  wrap64 (if 0 ≤ val then ⌊val⌋ else ⌈val⌉)

/-- `func round(val float64) int64`. -/
def round (val : F) : Int :=
  if val < 0 then toInt64 (val - 1 / 2) else toInt64 (val + 1 / 2)

/-- `func (fhex FractionalHex) ToHex() Hex`: cube rounding. -/
def FractionalHex.ToHex (fhex : FractionalHex F) : Hex :=
  let q := round fhex.Q
  let r := round fhex.R
  let s := round fhex.S
  let qDiff := |(q : F) - fhex.Q|
  let rDiff := |(r : F) - fhex.R|
  let sDiff := |(s : F) - fhex.S|
  if qDiff > rDiff ∧ qDiff > sDiff then
    { q := wrap64 (-(wrap64 (r + s))), r := r }
  else if rDiff > sDiff then
    { q := q, r := wrap64 (-(wrap64 (q + s))) }
  else
    { q := q, r := r }

/-- The float lies between the smallest and the largest `int64`. -/
def fitsInt64 (val : F) : Prop :=
  (-9223372036854775808 : F) ≤ val ∧ val ≤ 9223372036854775807

/-- Squared distance in the plane between a fractional hex and an integer hex:
the sum of the squared differences of the three cube coordinates, the third
coordinate of the integer hex being the exact `-(q + r)`. -/
def planeDist2 (fhex : FractionalHex F) (h : Hex) : F :=
  ((h.q : F) - fhex.Q) ^ 2 + ((h.r : F) - fhex.R) ^ 2
    + (((-(h.q + h.r) : Int) : F) - fhex.S) ^ 2

end Exact

/-! ## Failures and loops -/

/-- Ways in which a call of the library fails to return a value.  The first
four are the run-time behaviours of the Go program; the last is the error
kind `InvalidArgument` named by the specification, which no path of the
source constructs. -/
inductive Failure where
  | indexOutOfRange
  | makeSliceLen
  | encodingOverflow
  | diverges
  | invalidArgument
deriving DecidableEq, Repr

/-- The `n` consecutive integers `lo, lo + 1, ..., lo + n - 1`. -/
def intRange (lo : Int) : Nat → List Int
  | 0 => []
  | n + 1 => lo :: intRange (lo + 1) n

/-- The values taken by the loop variable of `for v := lo; v <= hi; v++` over
`int64`, in order.  When `hi` is the largest `int64` the condition `v <= hi`
can never fail and the loop does not exit: `none`. -/
def forRange (lo hi : Int) : Option (List Int) :=
  if hi = maxInt64 then none else some (intRange lo (hi + 1 - lo).toNat)

/-! ## `HexNeighbors` -/

/-- The inner loop of `HexNeighbors` for one value of `q`, over the values `rs`
of `r`.  The state is the slice `neighbors` and the write index `i`; a write
`neighbors[i] = ...` with `i` outside the slice is a run-time panic. -/
def neighborsRow (hex : Hex) (q : Int) :
    List Int → List Hex × Nat → Except Failure (List Hex × Nat)
  | [], st => Except.ok st
  | r :: rs, (neighbors, i) =>
    if q = 0 ∧ r = 0 then
      neighborsRow hex q rs (neighbors, i)
    else if i < neighbors.length then
      neighborsRow hex q rs
        (neighbors.set i (MakeHex (wrap64 (q + hex.Q)) (wrap64 (r + hex.R))), i + 1)
    else
      Except.error Failure.indexOutOfRange

/-- The outer loop of `HexNeighbors` over the values `qs` of `q`. -/
def neighborsScan (hex : Hex) (layers : Int) :
    List Int → List Hex × Nat → Except Failure (List Hex × Nat)
  | [], st => Except.ok st
  | q :: qs, st =>
    let r1 := max (wrap64 (-layers)) (wrap64 (wrap64 (-q) - layers))
    let r2 := min layers (wrap64 (wrap64 (-q) + layers))
    match forRange r1 r2 with
    | none => Except.error Failure.diverges
    | some rs =>
      match neighborsRow hex q rs st with
      | Except.error e => Except.error e
      | Except.ok st' => neighborsScan hex layers qs st'

/-- The body of `HexNeighbors`: the final slice together with the final value
of the write index `i`.  `make([]Hex, total)` panics when `total` is negative;
the model has no bound on memory, so every non-negative length is allocated. -/
def HexNeighborsLoop (hex : Hex) (layers : Int) : Except Failure (List Hex × Nat) :=
  let total := wrap64 (wrap64 (wrap64 (layers + 1) * layers) * 3)
  if total < 0 then
    Except.error Failure.makeSliceLen
  else
    let neighbors := List.replicate total.toNat (MakeHex 0 0)
    match forRange (wrap64 (-layers)) layers with
    | none => Except.error Failure.diverges
    | some qs => neighborsScan hex layers qs (neighbors, 0)

/-- `func (grid *Grid) HexNeighbors(hex Hex, layers int64) []Hex` (the grid is
not used by the function). -/
def HexNeighbors (hex : Hex) (layers : Int) : Except Failure (List Hex) :=
  match HexNeighborsLoop hex layers with
  | Except.error e => Except.error e
  | Except.ok st => Except.ok st.1

/-- Axial hex distance `max(|dq|, |dr|, |dq + dr|)` between two hexes, over the
integers. -/
def hexDist (c h : Hex) : Int :=
  Max.max (Max.max |h.q - c.q| |h.r - c.r|) |(h.q - c.q) + (h.r - c.r)|

/-- The offsets of one row of the scan of the specification: `dr` ascending
from `max(-layers, -dq-layers)` to `min(layers, -dq+layers)`, `(0,0)` skipped. -/
def scanRow (layers dq : Int) : List (Int × Int) :=
  ((intRange (Max.max (-layers) (-dq - layers))
      (Min.min layers (-dq + layers) + 1 - Max.max (-layers) (-dq - layers)).toNat).filter
    (fun dr => ¬ (dq = 0 ∧ dr = 0))).map (fun dr => (dq, dr))

/-- The enumeration of offsets in the scan order of the specification: `dq`
ascending from `-layers` to `layers` and, within each `dq`, the row `scanRow`. -/
def scanOffsets (layers : Int) : List (Int × Int) :=
  (intRange (-layers) (layers + 1 - -layers).toNat).flatMap (scanRow layers)

/-- The hex written by `HexNeighbors` for the offset `d` of the scan. -/
def offsetHex (hex : Hex) (d : Int × Int) : Hex :=
  MakeHex (wrap64 (d.1 + hex.Q)) (wrap64 (d.2 + hex.R))

/-- Strict lexicographic order on hexes: `q` first, then `r`. -/
def Hex.lexLt (a b : Hex) : Prop := a.q < b.q ∨ (a.q = b.q ∧ a.r < b.r)

instance (a b : Hex) : Decidable (Hex.lexLt a b) := by
  unfold Hex.lexLt; exact inferInstance

/-! ## The coder -/

/-- Modelled from the spec: the bit interleave of the external coder, absent
from the sources: the low `n` bits of `a` go to the even positions and those of
`b` to the odd positions. -/
def interleave : Nat → Nat → Nat → Nat
  | 0, _, _ => 0
  | n + 1, a, b => a % 2 + 2 * (b % 2) + 4 * interleave n (a / 2) (b / 2)

/-- Modelled from the spec: the inverse of the bit interleave of the external
coder, absent from the sources: the even and the odd bits of the low `2 n`
bits. -/
def deinterleave : Nat → Nat → Nat × Nat
  | 0, _ => (0, 0)
  | n + 1, c =>
    (c % 2 + 2 * (deinterleave n (c / 4)).1, c / 2 % 2 + 2 * (deinterleave n (c / 4)).2)

/-- Modelled from the spec: the two-dimensional space-filling-curve coder
`*morton.Morton64` (package `github.com/gojuno/go.morton`, not part of the
sources).  The spec gives it a configured bit width per axis, both axes sharing
one 64-bit key split evenly, `pack` as a bit interleave of the two coordinates
after a signed-to-unsigned mapping, `unpack` as its inverse, and an encoding
error for a value outside the configured range.  The regression vectors of
`hexgrid_test.go` place the bits of `q` at the even positions and give the hex
(0, 0) the code 0, which fixes the signed mapping on non-negative values as the
identity; negative values carry a sign bit on top of their magnitude. -/
structure Morton64 where
  bits : Nat
  bits_pos : 0 < bits
  bits_le : bits ≤ 32

/-- Modelled from the spec: the coder of the tests, `morton.Make64(2, 32)`. -/
def Make64_2_32 : Morton64 := { bits := 32, bits_pos := by decide, bits_le := by decide }

/-- Modelled from the spec: the value lies within the coder's configured
per-axis range, `-2^(bits-1) < v < 2^(bits-1)`. -/
def Morton64.inRange (m : Morton64) (v : Int) : Prop :=
  -((2 ^ (m.bits - 1) : Nat) : Int) < v ∧ v < ((2 ^ (m.bits - 1) : Nat) : Int)

instance (m : Morton64) (v : Int) : Decidable (m.inRange v) := by
  unfold Morton64.inRange; exact inferInstance

/-- Modelled from the spec: signed-to-unsigned mapping of one coordinate; a
value outside the configured range is an encoding error. -/
def Morton64.shiftSign (m : Morton64) (v : Int) : Except Failure Nat :=
  if m.inRange v then
    if v < 0 then Except.ok ((-v).toNat + 2 ^ (m.bits - 1)) else Except.ok v.toNat
  else
    Except.error Failure.encodingOverflow

/-- Modelled from the spec: inverse of `shiftSign`. -/
def Morton64.unshiftSign (m : Morton64) (u : Nat) : Int :=
  if u / 2 ^ (m.bits - 1) % 2 = 1 then -((u % 2 ^ (m.bits - 1) : Nat) : Int)
  else ((u % 2 ^ (m.bits - 1) : Nat) : Int)

/-- Modelled from the spec: `pack` on signed values, `SPack(q, r)`; the key is
returned as an `int64`. -/
def Morton64.SPack (m : Morton64) (q r : Int) : Except Failure Int :=
  match m.shiftSign q, m.shiftSign r with
  | Except.ok uq, Except.ok ur => Except.ok (wrap64 (interleave m.bits uq ur))
  | Except.error e, _ => Except.error e
  | _, Except.error e => Except.error e

/-- Modelled from the spec: `unpack` on signed values, `SUnpack(code)`. -/
def Morton64.SUnpack (m : Morton64) (code : Int) : Int × Int :=
  let u := (code % 18446744073709551616).toNat
  (m.unshiftSign (deinterleave m.bits u).1, m.unshiftSign (deinterleave m.bits u).2)

/-! ## Orientation and grid -/

/-- `type Orientation struct`. -/
structure Orientation (F : Type) where
  f : Fin 4 → F
  b : Fin 4 → F
  startAngle : F
  sinuses : Fin 6 → F
  cosinuses : Fin 6 → F

/-- `type Grid struct`. -/
structure Grid (F : Type) where
  orientation : Orientation F
  origin : Point F
  size : Point F
  mort : Morton64

/-- `type Region struct`; the Go map `lookup` is a finite partial function from
codes to indices. -/
structure Region (F : Type) where
  grid : Grid F
  hexes : List Hex
  lookup : Int → Option Nat

/-- `func MakeGrid(orientation, origin, size, mort) *Grid`. -/
def MakeGrid {F : Type} (orientation : Orientation F) (origin size : Point F)
    (mort : Morton64) : Grid F :=
  { orientation := orientation, origin := origin, size := size, mort := mort }

/-- `func (grid *Grid) HexToCode(hex Hex) int64`. -/
def Grid.HexToCode {F : Type} (grid : Grid F) (hex : Hex) : Except Failure Int :=
  grid.mort.SPack hex.Q hex.R

/-- `func (grid *Grid) HexFromCode(code int64) Hex`. -/
def Grid.HexFromCode {F : Type} (grid : Grid F) (code : Int) : Hex :=
  MakeHex (grid.mort.SUnpack code).1 (grid.mort.SUnpack code).2

/-- The hex lies within the coder's configured range on both axes. -/
def Grid.inCoderRange {F : Type} (grid : Grid F) (hex : Hex) : Prop :=
  grid.mort.inRange hex.q ∧ grid.mort.inRange hex.r

section Geometry

variable {F : Type} [LinearOrderedField F] [FloorRing F]

/-- The value of a float expression in which a divisor may be zero: a finite
value, an infinity or a NaN. -/
inductive Slope (F : Type) where
  | finite (v : F)
  | posInf
  | negInf
  | nan

/-- Float division `a / b` with the IEEE results for a zero divisor. -/
def slopeDiv (a b : F) : Slope F :=
  if b = 0 then
    if 0 < a then Slope.posInf else if a < 0 then Slope.negInf else Slope.nan
  else Slope.finite (a / b)

/-- Float product `c * x` of a finite `c` and a value that may be non-finite. -/
def Slope.scale (c : F) : Slope F → Slope F
  | Slope.finite v => Slope.finite (c * v)
  | Slope.posInf => if 0 < c then Slope.posInf else if c < 0 then Slope.negInf else Slope.nan
  | Slope.negInf => if 0 < c then Slope.negInf else if c < 0 then Slope.posInf else Slope.nan
  | Slope.nan => Slope.nan

/-- Float sum `x + y` of two values that may be non-finite. -/
def Slope.add : Slope F → Slope F → Slope F
  | Slope.finite a, Slope.finite b => Slope.finite (a + b)
  | Slope.nan, _ => Slope.nan
  | _, Slope.nan => Slope.nan
  | Slope.posInf, Slope.negInf => Slope.nan
  | Slope.negInf, Slope.posInf => Slope.nan
  | Slope.posInf, _ => Slope.posInf
  | _, Slope.posInf => Slope.posInf
  | Slope.negInf, _ => Slope.negInf
  | _, Slope.negInf => Slope.negInf

/-- Float negation `-x`. -/
def Slope.neg : Slope F → Slope F
  | Slope.finite v => Slope.finite (-v)
  | Slope.posInf => Slope.negInf
  | Slope.negInf => Slope.posInf
  | Slope.nan => Slope.nan

/-- `func round(val float64) int64` on a value that may be non-finite.  For an
infinity or a NaN `val - 0.5` and `val + 0.5` are `val` again, and Go leaves the
conversion `int64(val)` implementation-dependent; the model takes the smallest
`int64`, which is what the conversion instruction of amd64 returns. -/
def Slope.round : Slope F → Int
  | Slope.finite v => Hexgrid.round v
  | _ => minInt64

/-- `math.Abs(float64(n) - val)` for a value that may be non-finite. -/
def Slope.absDiff (n : Int) : Slope F → Slope F
  | Slope.finite v => Slope.finite |(n : F) - v|
  | Slope.nan => Slope.nan
  | _ => Slope.posInf

/-- The float comparison `x > y`. -/
def Slope.gt : Slope F → Slope F → Bool
  | Slope.nan, _ => false
  | _, Slope.nan => false
  | Slope.finite a, Slope.finite b => decide (a > b)
  | Slope.posInf, Slope.posInf => false
  | Slope.posInf, _ => true
  | Slope.negInf, _ => false
  | Slope.finite _, Slope.negInf => true
  | Slope.finite _, Slope.posInf => false

/-- The body of `func (fhex FractionalHex) ToHex() Hex` on coordinates that may
be non-finite, with the float operations of IEEE. -/
def floatToHex (fq fr : Slope F) : Hex :=
  let fs := (fq.add fr).neg
  let q := fq.round
  let r := fr.round
  let s := fs.round
  let qDiff := fq.absDiff q
  let rDiff := fr.absDiff r
  let sDiff := fs.absDiff s
  if qDiff.gt rDiff = true ∧ qDiff.gt sDiff = true then
    { q := wrap64 (-(wrap64 (r + s))), r := r }
  else if rDiff.gt sDiff = true then
    { q := q, r := wrap64 (-(wrap64 (q + s))) }
  else
    { q := q, r := r }

/-- `func (grid *Grid) HexAt(point Point) Hex`.  The two divisions are float
divisions: a zero size component gives an infinity or a NaN, and `ToHex` is
then evaluated on non-finite coordinates. -/
def Grid.HexAt (grid : Grid F) (point : Point F) : Hex :=
  let x := slopeDiv (point.X - grid.origin.X) grid.size.X
  let y := slopeDiv (point.Y - grid.origin.Y) grid.size.Y
  let q := (x.scale (grid.orientation.b 0)).add (y.scale (grid.orientation.b 1))
  let r := (x.scale (grid.orientation.b 2)).add (y.scale (grid.orientation.b 3))
  match q, r with
  | Slope.finite q, Slope.finite r => (MakeFractionalHex q r).ToHex
  | q, r => floatToHex q r

/-- `func (grid *Grid) HexCenter(hex Hex) Point`. -/
def Grid.HexCenter (grid : Grid F) (hex : Hex) : Point F :=
  let x := (grid.orientation.f 0 * (hex.Q : F) + grid.orientation.f 1 * (hex.R : F))
    * grid.size.X + grid.origin.X
  let y := (grid.orientation.f 2 * (hex.Q : F) + grid.orientation.f 3 * (hex.R : F))
    * grid.size.Y + grid.origin.Y
  MakePoint x y

/-- `func (grid *Grid) HexCorners(hex Hex) [6]Point`. -/
def Grid.HexCorners (grid : Grid F) (hex : Hex) : Fin 6 → Point F :=
  fun i =>
    let center := grid.HexCenter hex
    let x := grid.size.X * grid.orientation.cosinuses i + center.X
    let y := grid.size.Y * grid.orientation.sinuses i + center.Y
    MakePoint x y

/-- The float comparison `x >= y` on quotients. -/
def Slope.ge : Slope F → Slope F → Bool
  | Slope.nan, _ => false
  | _, Slope.nan => false
  | Slope.posInf, _ => true
  | _, Slope.negInf => true
  | Slope.finite a, Slope.finite b => decide (a ≥ b)
  | Slope.finite _, Slope.posInf => false
  | Slope.negInf, _ => false

/-- The loop `for point.Y() == start.Y() || point.Y() == end.Y()` of
`intersectsWithRaycast`, which replaces `point.y` by `nextUp point.y`, the
next float above it (`math.Nextafter(y, +Inf)`).  `fuel` bounds the number of
tests of the loop condition; `none` when the condition still holds after the
last of them. -/
def bumpY (nextUp : F → F) (startY endY : F) : Nat → F → Option F
  | 0, _ => none
  | fuel + 1, y =>
    if y = startY ∨ y = endY then bumpY nextUp startY endY fuel (nextUp y) else some y

/-- The last two statements of `intersectsWithRaycast`: the comparison of the
slope of the ray with the slope of the edge. -/
def slopeTest (point start stop : Point F) : Bool :=
  let raySlope := slopeDiv (point.Y - start.Y) (point.X - start.X)
  let diagSlope := slopeDiv (stop.Y - start.Y) (stop.X - start.X)
  raySlope.ge diagSlope

/-- `func intersectsWithRaycast(point Point, start Point, end Point) bool` (the
parameter `end` is called `stop`).  Two steps of a strictly increasing `nextUp`
leave both end points behind, so three tests of the loop condition suffice; the
call is reported as diverging otherwise. -/
def intersectsWithRaycast (nextUp : F → F) (point start stop : Point F) :
    Except Failure Bool :=
  let start' := if start.Y > stop.Y then stop else start
  let stop' := if start.Y > stop.Y then start else stop
  match bumpY nextUp start'.Y stop'.Y 3 point.Y with
  | none => Except.error Failure.diverges
  | some newY =>
    let point' := MakePoint point.X newY
    if point'.Y < start'.Y ∨ point'.Y > stop'.Y then
      Except.ok false
    else if start'.X > stop'.X then
      if point'.X > start'.X then Except.ok false
      else if point'.X < stop'.X then Except.ok true
      else Except.ok (slopeTest point' start' stop')
    else
      if point'.X > stop'.X then Except.ok false
      else if point'.X < start'.X then Except.ok true
      else Except.ok (slopeTest point' start' stop')

/-- The loop of `pointInGeometry` over the edges `geometry[i-1] → geometry[i]`,
`prev` being `geometry[i-1]` and the list the vertices from `geometry[i]` on. -/
def raycastEdges (nextUp : F → F) (point : Point F) :
    Point F → List (Point F) → Bool → Except Failure Bool
  | _, [], contains => Except.ok contains
  | prev, cur :: rest, contains =>
    match intersectsWithRaycast nextUp point prev cur with
    | Except.error e => Except.error e
    | Except.ok true => raycastEdges nextUp point cur rest (!contains)
    | Except.ok false => raycastEdges nextUp point cur rest contains

/-- `func pointInGeometry(geometry []Point, point Point) bool`; indexing the
empty slice is a run-time panic. -/
def pointInGeometry (nextUp : F → F) (geometry : List (Point F)) (point : Point F) :
    Except Failure Bool :=
  match geometry, geometry.getLast? with
  | first :: rest, some last =>
    match intersectsWithRaycast nextUp point last first with
    | Except.error e => Except.error e
    | Except.ok contains => raycastEdges nextUp point first rest contains
  | _, _ => Except.error Failure.indexOutOfRange

/-- A loop `for ... { if test(x) { add = true; break } }` over the list. -/
def anyInside {α : Type} (test : α → Except Failure Bool) : List α → Except Failure Bool
  | [] => Except.ok false
  | a :: as =>
    match test a with
    | Except.error e => Except.error e
    | Except.ok true => Except.ok true
    | Except.ok false => anyInside test as

/-- The value of `add` computed by the body of the scan of `MakeRegion` for one
hex: some corner of the hex is inside the polygon or, failing that, some
polygon vertex is inside the corner ring of the hex. -/
def hexCovered (nextUp : F → F) (grid : Grid F) (geometry : List (Point F)) (hex : Hex) :
    Except Failure Bool :=
  let corners := grid.HexCorners hex
  match anyInside (fun c => pointInGeometry nextUp geometry c) (List.ofFn corners) with
  | Except.error e => Except.error e
  | Except.ok true => Except.ok true
  | Except.ok false =>
    anyInside (fun v => pointInGeometry nextUp (List.ofFn corners) v) geometry

/-- The inner loop of the scan of `MakeRegion` for one `q`, over the values `rs`
of `r`; the state is the slice `hexes`. -/
def regionRow (nextUp : F → F) (grid : Grid F) (geometry : List (Point F)) (q : Int) :
    List Int → List Hex → Except Failure (List Hex)
  | [], hexes => Except.ok hexes
  | r :: rs, hexes =>
    match hexCovered nextUp grid geometry (MakeHex q r) with
    | Except.error e => Except.error e
    | Except.ok true => regionRow nextUp grid geometry q rs (hexes ++ [MakeHex q r])
    | Except.ok false => regionRow nextUp grid geometry q rs hexes

/-- The outer loop of the scan of `MakeRegion` over the values `qs` of `q`. -/
def regionScan (nextUp : F → F) (grid : Grid F) (geometry : List (Point F)) (r1 r2 : Int) :
    List Int → List Hex → Except Failure (List Hex)
  | [], hexes => Except.ok hexes
  | q :: qs, hexes =>
    match forRange r1 r2 with
    | none => Except.error Failure.diverges
    | some rs =>
      match regionRow nextUp grid geometry q rs hexes with
      | Except.error e => Except.error e
      | Except.ok hexes' => regionScan nextUp grid geometry r1 r2 qs hexes'

/-- The loop of `MakeRegion` that fills the map: `lookup[HexToCode(hexes[i])] = i`. -/
def buildLookup (grid : Grid F) :
    List Hex → Nat → (Int → Option Nat) → Except Failure (Int → Option Nat)
  | [], _, lookup => Except.ok lookup
  | hex :: rest, i, lookup =>
    match grid.HexToCode hex with
    | Except.error e => Except.error e
    | Except.ok code =>
      buildLookup grid rest (i + 1) (fun k => if k = code then some i else lookup k)

/-- The bounding box `(q1, q2, r1, r2)` of `MakeRegion` before it is expanded:
the loop over `geometry[1:]` starting from the hex of `geometry[0]`. -/
def boundingBox (grid : Grid F) (first : Point F) (rest : List (Point F)) :
    Int × Int × Int × Int :=
  rest.foldl
    (fun box p =>
      (min box.1 (grid.HexAt p).Q, max box.2.1 (grid.HexAt p).Q,
        min box.2.2.1 (grid.HexAt p).R, max box.2.2.2 (grid.HexAt p).R))
    ((grid.HexAt first).Q, (grid.HexAt first).Q, (grid.HexAt first).R, (grid.HexAt first).R)

/-- `MakeRegion` after the duplicate closing vertex has been dropped. -/
def makeRegionOpen (nextUp : F → F) (grid : Grid F) (geometry : List (Point F)) :
    Except Failure (Region F) :=
  match geometry with
  | [] => Except.error Failure.indexOutOfRange
  | first :: rest =>
    let box := boundingBox grid first rest
    let q1 := wrap64 (box.1 - 1)
    let q2 := wrap64 (box.2.1 + 1)
    let r1 := wrap64 (box.2.2.1 - 1)
    let r2 := wrap64 (box.2.2.2 + 1)
    match forRange q1 q2 with
    | none => Except.error Failure.diverges
    | some qs =>
      match regionScan nextUp grid geometry r1 r2 qs [] with
      | Except.error e => Except.error e
      | Except.ok hexes =>
        match buildLookup grid hexes 0 (fun _ => none) with
        | Except.error e => Except.error e
        | Except.ok lookup => Except.ok { grid := grid, hexes := hexes, lookup := lookup }

/-- The ring without its duplicate closing vertex:
`if geometry[0] == geometry[len(geometry)-1] { geometry = geometry[:len(geometry)-1] }`. -/
def openRing (first last : Point F) (geometry : List (Point F)) : List (Point F) :=
  if first = last then geometry.dropLast else geometry

/-- `func (grid *Grid) MakeRegion(geometry []Point) *Region`; indexing the empty
slice is a run-time panic. -/
def Grid.MakeRegion (nextUp : F → F) (grid : Grid F) (geometry : List (Point F)) :
    Except Failure (Region F) :=
  match geometry, geometry.getLast? with
  | first :: _, some last => makeRegionOpen nextUp grid (openRing first last geometry)
  | _, _ => Except.error Failure.indexOutOfRange

/-- `func (region *Region) Hexes() []Hex`. -/
def Region.Hexes (region : Region F) : List Hex := region.hexes

/-- `func (region *Region) Contains(hex Hex) bool`. -/
def Region.Contains (region : Region F) (hex : Hex) : Except Failure Bool :=
  match region.grid.HexToCode hex with
  | Except.error e => Except.error e
  | Except.ok code => Except.ok (region.lookup code).isSome

end Geometry

/-! ## Specification-level notions and sample data for the region -/

section RegionDefs
variable {F : Type} [LinearOrderedField F] [FloorRing F]

/-- The polygon ring processed by `MakeRegion`: the input without its duplicate
closing vertex. -/
def ringOf (geometry : List (Point F)) : List (Point F) :=
  match geometry, geometry.getLast? with
  | first :: _, some last => openRing first last geometry
  | _, _ => []

/-- The inclusion rule of the specification for one hex: at least one of its
six corners is inside the polygon, or at least one polygon vertex is inside the
six-corner ring of the hex (both by `pointInGeometry`). -/
def coveredBy (nextUp : F → F) (grid : Grid F) (ring : List (Point F)) (hex : Hex) : Prop :=
  (∃ i : Fin 6, pointInGeometry nextUp ring (grid.HexCorners hex i) = Except.ok true)
    ∨ (∃ v ∈ ring,
        pointInGeometry nextUp (List.ofFn (grid.HexCorners hex)) v = Except.ok true)

/-- The integer is the least element of the list. -/
def isMinOf (vals : List Int) (m : Int) : Prop := m ∈ vals ∧ ∀ v ∈ vals, m ≤ v

/-- The integer is the greatest element of the list. -/
def isMaxOf (vals : List Int) (m : Int) : Prop := m ∈ vals ∧ ∀ v ∈ vals, v ≤ m


/-- A stand-in over the rationals for `math.Nextafter(y, +Inf)`: a fixed small
step upwards. -/
def ratNextUp (x : ℚ) : ℚ := x + 1 / 4503599627370496

/-- A flat-top orientation over the rationals: `FlatOrientation` with 97/56 in
the place of the square root of 3. -/
def sampleOrientation : Orientation ℚ :=
  { f := ![3 / 2, 0, 97 / 112, 97 / 56]
    b := ![2 / 3, 0, -1 / 3, 56 / 97]
    startAngle := 0
    sinuses := ![0, 97 / 112, 97 / 112, 0, -97 / 112, -97 / 112]
    cosinuses := ![1, 1 / 2, -1 / 2, -1, -1 / 2, 1 / 2] }

/-- The grid of the tests, origin (10, 20) and size (20, 10), on the rational
flat-top orientation. -/
def sampleGrid : Grid ℚ :=
  MakeGrid sampleOrientation (MakePoint 10 20) (MakePoint 20 10) Make64_2_32

/-- A triangle inside the hex (0, 0) of `sampleGrid`. -/
def samplePolygon : List (Point ℚ) :=
  [MakePoint 10 20, MakePoint 14 20, MakePoint 10 23]

/-- The hexes of the scan of a box, in scan order. -/
def boxHexes (qs : List Int) (r1 r2 : Int) : List Hex :=
  qs.flatMap (fun q => (intRange r1 (r2 + 1 - r1).toNat).map (MakeHex q))

end RegionDefs

/-! ## The two orientations -/

section Orientations

variable {F : Type} [Field F]

/-- `func prehashAngles(orientation *Orientation)`, which fills the two tables.
The library functions `math.Sin` and `math.Cos` and the constant `math.Pi` are
parameters. -/
def prehashAngles (sin cos : F → F) (pi : F) (orientation : Orientation F) :
    Orientation F :=
  { orientation with
    sinuses := fun i => sin (2 * pi * (((i : Nat) : F) + orientation.startAngle) / 6)
    cosinuses := fun i => cos (2 * pi * (((i : Nat) : F) + orientation.startAngle) / 6) }

/-- `var PointyOrientation` after `init()`; `sqrt3` is the value of
`math.Sqrt(3.0)`. -/
def PointyOrientation (sqrt3 : F) (sin cos : F → F) (pi : F) : Orientation F :=
  prehashAngles sin cos pi
    { f := ![sqrt3, sqrt3 / 2, 0, 3 / 2]
      b := ![sqrt3 / 3, -1 / 3, 0, 2 / 3]
      startAngle := 1 / 2
      sinuses := fun _ => 0
      cosinuses := fun _ => 0 }

/-- `var FlatOrientation` after `init()`; `sqrt3` is the value of
`math.Sqrt(3.0)`. -/
def FlatOrientation (sqrt3 : F) (sin cos : F → F) (pi : F) : Orientation F :=
  prehashAngles sin cos pi
    { f := ![3 / 2, 0, sqrt3 / 2, sqrt3]
      b := ![2 / 3, 0, -1 / 3, sqrt3 / 3]
      startAngle := 0
      sinuses := fun _ => 0
      cosinuses := fun _ => 0 }

end Orientations

/-! ## Specification-level notions for the point-in-polygon test -/

section RaycastDefs

variable {F : Type} [LinearOrderedField F]

/-- The edges of a ring: the closing edge from the last vertex to the first,
followed by the consecutive pairs of vertices. -/
def ringEdges (ring : List (Point F)) : List (Point F × Point F) :=
  match ring, ring.getLast? with
  | first :: rest, some last => (last, first) :: List.zip ring rest
  | _, _ => []

/-- `intersectsWithRaycast` reports a crossing of the edge. -/
def crosses (nextUp : F → F) (point : Point F) (edge : Point F × Point F) : Bool :=
  match intersectsWithRaycast nextUp point edge.1 edge.2 with
  | Except.ok true => true
  | _ => false

/-- Twice the signed area of the triangle `a b p`: positive when `p` is to the
left of the directed line from `a` to `b`, zero when the three are collinear. -/
def cross (a b p : Point F) : F :=
  (b.x - a.x) * (p.y - a.y) - (b.y - a.y) * (p.x - a.x)

/-- The point is strictly inside the triangle `a b c`: it is strictly on the
same side of the three directed edges. -/
def insideTriangle (a b c p : Point F) : Prop :=
  (0 < cross a b p ∧ 0 < cross b c p ∧ 0 < cross c a p)
    ∨ (cross a b p < 0 ∧ cross b c p < 0 ∧ cross c a p < 0)

instance (a b c p : Point F) : Decidable (insideTriangle a b c p) := by
  unfold insideTriangle; exact inferInstance

/-- The result is the value `true`. -/
def isOkTrue (r : Except Failure Bool) : Bool :=
  match r with
  | Except.ok true => true
  | _ => false

end RaycastDefs

/-! ## Sample data on the pointy orientation -/

/-- A pointy-top orientation over the rationals: `PointyOrientation` with 97/56
in the place of the square root of 3 and the exact sines and cosines. -/
def samplePointyOrientation : Orientation ℚ :=
  { f := ![97 / 56, 97 / 112, 0, 3 / 2]
    b := ![56 / 97, -1 / 3, 0, 2 / 3]
    startAngle := 1 / 2
    sinuses := ![1 / 2, 1, 1 / 2, -1 / 2, -1, -1 / 2]
    cosinuses := ![97 / 112, 0, -97 / 112, -97 / 112, 0, 97 / 112] }

/-- The pointy-top grid with origin (100, 20) and size (20, 10). -/
def samplePointyGrid : Grid ℚ :=
  MakeGrid samplePointyOrientation (MakePoint 100 20) (MakePoint 20 10) Make64_2_32

/-- The ring of the region test of `hexgrid_test.go`. -/
def testPolygon : List (Point ℚ) :=
  [MakePoint 20 (1999999 / 100000), MakePoint 20 40, MakePoint 40 60, MakePoint 60 40,
    MakePoint 50 30, MakePoint 40 40]

/-! ## The grids of the tests -/

section TestDefs
variable {F : Type} [LinearOrderedField F]

/-- The value is the square root of 3 up to the accuracy of a `float64`: it is
non-negative and its square is within 10⁻⁹ of 3.  The real number √3 and the
float `math.Sqrt(3.0)` both satisfy it. -/
def approxSqrt3 (s : F) : Prop := 0 ≤ s ∧ |s * s - 3| ≤ 1 / 1000000000

/-- The grid of the tests on the flat orientation: origin (10, 20), size
(20, 10). -/
def flatTestGrid (sqrt3 : F) (sin cos : F → F) (pi : F) (mort : Morton64) : Grid F :=
  MakeGrid (FlatOrientation sqrt3 sin cos pi) (MakePoint 10 20) (MakePoint 20 10) mort

/-- The grid of the tests on the pointy orientation: origin (10, 20), size
(20, 10). -/
def pointyTestGrid (sqrt3 : F) (sin cos : F → F) (pi : F) (mort : Morton64) : Grid F :=
  MakeGrid (PointyOrientation sqrt3 sin cos pi) (MakePoint 10 20) (MakePoint 20 10) mort

end TestDefs

section CornerDefs
variable {F : Type} [LinearOrderedField F]

/-- The tables of the orientation hold the sines and cosines of the six corner
angles of the flat orientation (0°, 60°, ..., 300°) up to 10⁻⁸, the sine of 60°
being `s / 2`. -/
def approxFlatTables (s : F) (orientation : Orientation F) : Prop :=
  ∀ i : Fin 6,
    |orientation.cosinuses i - ![1, 1 / 2, -1 / 2, -1, -1 / 2, 1 / 2] i| ≤ 1 / 100000000
      ∧ |orientation.sinuses i - ![0, s / 2, s / 2, 0, -s / 2, -s / 2] i| ≤ 1 / 100000000

end CornerDefs

/-! ## Evaluation of regions -/

section EvalDefs
variable {F : Type}

/-- The hex sequence of the region when `MakeRegion` returned one. -/
def regionHexes (result : Except Failure (Region F)) : Option (List Hex) :=
  match result with
  | Except.ok region => some region.hexes
  | Except.error _ => none

end EvalDefs

/-- A triangle with the vertex (100, 12) inside the hex (0, 0) of
`samplePointyGrid`, straight above the bottom corner (100, 10) of that hex. -/
def alignedPolygon : List (Point ℚ) :=
  [MakePoint 100 12, MakePoint 101 5, MakePoint 103 5]

/-! ## The flat orientation in `float64` values -/

/-- The table `sinuses` of `FlatOrientation` in `float64` values: the sines of
the six `float64` angles `2.0 * math.Pi * float64(i) / 6.0`, each rounded to the
nearest `float64`. -/
def roundedSinuses : Fin 6 → ℚ :=
  ![0, 3900231685776981 / 4503599627370496, 7800463371553963 / 9007199254740992,
    4967757600021511 / 40564819207303340847894502572032,
    -975057921444245 / 1125899906842624, -3900231685776981 / 4503599627370496]

/-- The table `cosinuses` of `FlatOrientation` in `float64` values: the cosines
of the same six angles, each rounded to the nearest `float64`. -/
def roundedCosinuses : Fin 6 → ℚ :=
  ![1, 4503599627370497 / 9007199254740992, -2251799813685247 / 4503599627370496, -1,
    -1125899906842625 / 2251799813685248, 4503599627370497 / 9007199254740992]

/-- The table `sinuses` as the algorithm of Go's `math.Sin` (argument reduction
by multiples of π/4 and a polynomial) computes it; the entries 2 and 3 differ
from `roundedSinuses` by less than 2⁻⁵². -/
def goSinuses : Fin 6 → ℚ :=
  ![0, 3900231685776981 / 4503599627370496, 1950115842888491 / 2251799813685248,
    4851325781271 / 39614081257132168796771975168, -975057921444245 / 1125899906842624,
    -3900231685776981 / 4503599627370496]

/-- The table `cosinuses` as the algorithm of Go's `math.Cos` computes it; the
entry 5 is exactly 1/2 and differs from `roundedCosinuses` by 2⁻⁵³. -/
def goCosinuses : Fin 6 → ℚ :=
  ![1, 4503599627370497 / 9007199254740992, -2251799813685247 / 4503599627370496, -1,
    -1125899906842625 / 2251799813685248, 1 / 2]

/-- `var FlatOrientation` after `init()` in `float64` values, as rational
constants, for given tables: `math.Sqrt(3.0)` is 3900231685776981 / 2⁵¹, and
`2.0 / 3.0`, `-1.0 / 3.0` and `math.Sqrt(3.0) / 3.0` are rounded to the nearest
`float64`. -/
def float64FlatOrientation (sinuses cosinuses : Fin 6 → ℚ) : Orientation ℚ :=
  { f := ![3 / 2, 0, 3900231685776981 / 4503599627370496, 3900231685776981 / 2251799813685248]
    b := ![6004799503160661 / 9007199254740992, 0, -6004799503160661 / 18014398509481984,
      1300077228592327 / 2251799813685248]
    startAngle := 0
    sinuses := sinuses
    cosinuses := cosinuses }

/-- The grid of `TestRegion`: origin (10, 20), size (20, 10), `morton.Make64(2, 32)`,
on the flat orientation in `float64` values. -/
def float64TestGrid (sinuses cosinuses : Fin 6 → ℚ) : Grid ℚ :=
  MakeGrid (float64FlatOrientation sinuses cosinuses) (MakePoint 10 20) (MakePoint 20 10)
    Make64_2_32

/-- The ring of `TestRegion`, the coordinate 19.99999 being the nearest
`float64`, 5629496719463353 / 2⁴⁸. -/
def float64TestPolygon : List (Point ℚ) :=
  [MakePoint 20 (5629496719463353 / 281474976710656), MakePoint 20 40, MakePoint 40 60,
    MakePoint 60 40, MakePoint 50 30, MakePoint 40 40]

/-! ## A grid with a zero size component -/

section DegenerateDefs
variable {F : Type}

/-- The float value is finite: neither an infinity nor a NaN. -/
def Slope.isFinite : Slope F → Bool
  | Slope.finite _ => true
  | _ => false

end DegenerateDefs

/-! ## Theorems -/

section ExactLemmas

variable {F : Type} [LinearOrderedField F] [FloorRing F]

theorem wrap64_of_inInt64 {x : Int} (h : inInt64 x) : wrap64 x = x := by
  unfold inInt64 at h; unfold wrap64; omega

theorem wrap64_neg_wrap64_add (x y : Int) :
    wrap64 (-(wrap64 (x + y))) = wrap64 (-(x + y)) := by
  unfold wrap64; omega

/-- On a float within the `int64` range, `round` returns an `int64` that is
within one half of its argument. -/
theorem round_spec (x : F) (hx : fitsInt64 x) :
    inInt64 (round x) ∧ -(1 / 2) ≤ ((round x : Int) : F) - x
      ∧ ((round x : Int) : F) - x ≤ 1 / 2 := by
  obtain ⟨hlo, hhi⟩ := hx
  unfold round toInt64
  by_cases hneg : x < 0
  · have h1 : ¬ (0 : F) ≤ x - 1 / 2 := by
      intro h; linarith
    simp only [hneg, h1, if_true, if_false]
    have hc1 : (⌈x - 1 / 2⌉ : F) < x - 1 / 2 + 1 := Int.ceil_lt_add_one _
    have hc2 : x - 1 / 2 ≤ (⌈x - 1 / 2⌉ : F) := Int.le_ceil _
    have hb1 : ((-9223372036854775808 : Int) : F) ≤ (⌈x - 1 / 2⌉ : F) + 1 / 2 := by
      push_cast; linarith
    have hb2 : (⌈x - 1 / 2⌉ : F) < ((1 : Int) : F) := by
      push_cast; linarith
    have hb2' : ⌈x - 1 / 2⌉ < 1 := by exact_mod_cast hb2
    have hb1' : (-9223372036854775808 : Int) - 1 < ⌈x - 1 / 2⌉ := by
      have : (((-9223372036854775808 : Int) - 1 : Int) : F) < (⌈x - 1 / 2⌉ : F) := by
        push_cast; push_cast at hb1; linarith
      exact_mod_cast this
    have hin : inInt64 ⌈x - 1 / 2⌉ := by
      unfold inInt64; omega
    rw [wrap64_of_inInt64 hin]
    exact ⟨hin, by linarith, by linarith⟩
  · have hx0 : 0 ≤ x := not_lt.mp hneg
    have h1 : (0 : F) ≤ x + 1 / 2 := by linarith
    simp only [hneg, h1, if_true, if_false]
    have hf1 : (⌊x + 1 / 2⌋ : F) ≤ x + 1 / 2 := Int.floor_le _
    have hf2 : x + 1 / 2 < (⌊x + 1 / 2⌋ : F) + 1 := Int.lt_floor_add_one _
    have hb1 : (⌊x + 1 / 2⌋ : F) < ((9223372036854775807 : Int) : F) + 1 := by
      push_cast; linarith
    have hb1' : ⌊x + 1 / 2⌋ < 9223372036854775807 + 1 := by exact_mod_cast hb1
    have hb2 : 0 ≤ ⌊x + 1 / 2⌋ := Int.floor_nonneg.mpr h1
    have hin : inInt64 ⌊x + 1 / 2⌋ := by
      unfold inInt64; omega
    rw [wrap64_of_inInt64 hin]
    exact ⟨hin, by linarith, by linarith⟩

/-- Moving an integer step `d` away from an error `e` that lies in a unit
window `[m, m + 1]` costs at least `(2 m + 1) d` in squared distance. -/
theorem sq_shift_ge (e m : F) (d : Int) (h1 : m ≤ e) (h2 : e ≤ m + 1) :
    (2 * m + 1) * (d : F) ≤ (e + (d : F)) ^ 2 - e ^ 2 := by
  have hd : d ≤ -1 ∨ d = 0 ∨ 1 ≤ d := by omega
  rcases hd with hd | hd | hd
  · have hd' : (d : F) ≤ -1 := by exact_mod_cast hd
    nlinarith [mul_nonneg (by linarith : (0 : F) ≤ -1 - (d : F)) (by linarith : (0 : F) ≤ m + 1 - e),
      mul_nonneg (by linarith : (0 : F) ≤ -(d : F)) (by linarith : (0 : F) ≤ -1 - (d : F)),
      mul_nonneg (by linarith : (0 : F) ≤ -(d : F)) (by linarith : (0 : F) ≤ m + 1 - e)]
  · subst hd; simp
  · have hd' : (1 : F) ≤ (d : F) := by exact_mod_cast hd
    nlinarith [mul_nonneg (by linarith : (0 : F) ≤ (d : F) - 1) (by linarith : (0 : F) ≤ e - m),
      mul_nonneg (by linarith : (0 : F) ≤ (d : F)) (by linarith : (0 : F) ≤ (d : F) - 1),
      mul_nonneg (by linarith : (0 : F) ≤ (d : F)) (by linarith : (0 : F) ≤ e - m)]

/-- A hex whose three coordinate errors lie in a common unit window is at least
as close to the fractional hex as any other integer hex. -/
theorem planeDist2_le_of_window (fhex : FractionalHex F) (g h : Hex) (m : F)
    (hq1 : m ≤ (g.q : F) - fhex.Q) (hq2 : (g.q : F) - fhex.Q ≤ m + 1)
    (hr1 : m ≤ (g.r : F) - fhex.R) (hr2 : (g.r : F) - fhex.R ≤ m + 1)
    (hs1 : m ≤ ((-(g.q + g.r) : Int) : F) - fhex.S)
    (hs2 : ((-(g.q + g.r) : Int) : F) - fhex.S ≤ m + 1) :
    planeDist2 fhex g ≤ planeDist2 fhex h := by
  have e1 := sq_shift_ge ((g.q : F) - fhex.Q) m (h.q - g.q) hq1 hq2
  have e2 := sq_shift_ge ((g.r : F) - fhex.R) m (h.r - g.r) hr1 hr2
  have e3 := sq_shift_ge (((-(g.q + g.r) : Int) : F) - fhex.S) m
    (-(h.q + h.r) - -(g.q + g.r)) hs1 hs2
  have hz : (2 * m + 1) * (((h.q - g.q : Int) : F)) + (2 * m + 1) * (((h.r - g.r : Int) : F))
      + (2 * m + 1) * (((-(h.q + h.r) - -(g.q + g.r) : Int) : F)) = 0 := by
    push_cast; ring
  unfold planeDist2
  push_cast at e1 e2 e3 hz ⊢
  have c1 : (g.q : F) - fhex.Q + ((h.q : F) - (g.q : F)) = (h.q : F) - fhex.Q := by ring
  have c2 : (g.r : F) - fhex.R + ((h.r : F) - (g.r : F)) = (h.r : F) - fhex.R := by ring
  have c3 : -((g.q : F) + (g.r : F)) - fhex.S + (-((h.q : F) + (h.r : F)) - -((g.q : F) + (g.r : F)))
      = -((h.q : F) + (h.r : F)) - fhex.S := by ring
  rw [c1] at e1
  rw [c2] at e2
  rw [c3] at e3
  linarith

/-- The three rounded cube coordinates of a fractional hex add up to -1, 0 or 1. -/
theorem round_sum_cases (eA eB eC : F) (k : Int) (hk : (k : F) = eA + eB + eC)
    (hA1 : -(1 / 2) ≤ eA) (hA2 : eA ≤ 1 / 2) (hB1 : -(1 / 2) ≤ eB) (hB2 : eB ≤ 1 / 2)
    (hC1 : -(1 / 2) ≤ eC) (hC2 : eC ≤ 1 / 2) : k = -1 ∨ k = 0 ∨ k = 1 := by
  have h1 : (k : F) < ((2 : Int) : F) := by push_cast; linarith
  have h2 : ((-2 : Int) : F) < (k : F) := by push_cast; linarith
  have h1' : k < 2 := by exact_mod_cast h1
  have h2' : -2 < k := by exact_mod_cast h2
  omega

/-- When the coordinate with the largest rounding error is recomputed from the
other two, the three errors of the result lie in a common unit window; the
recomputed coordinate moves towards the fractional value. -/
theorem window_of_max (eX eY eZ : F) (k : Int) (hk : (k : F) = eX + eY + eZ)
    (hX1 : -(1 / 2) ≤ eX) (hX2 : eX ≤ 1 / 2) (hY1 : -(1 / 2) ≤ eY) (hY2 : eY ≤ 1 / 2)
    (hZ1 : -(1 / 2) ≤ eZ) (hZ2 : eZ ≤ 1 / 2) (hY : |eY| ≤ |eX|) (hZ : |eZ| ≤ |eX|) :
    (k = -1 → eX < 0) ∧ (k = 1 → 0 < eX) ∧
      ∃ m : F, m ≤ eX - (k : F) ∧ eX - (k : F) ≤ m + 1 ∧ m ≤ eY ∧ eY ≤ m + 1
        ∧ m ≤ eZ ∧ eZ ≤ m + 1 := by
  have hcases := round_sum_cases eX eY eZ k hk hX1 hX2 hY1 hY2 hZ1 hZ2
  have hY3 := neg_abs_le eY
  have hZ3 := neg_abs_le eZ
  have hY4 := le_abs_self eY
  have hZ4 := le_abs_self eZ
  rcases hcases with hc | hc | hc
  · have hk' : eX + eY + eZ = -1 := by rw [← hk, hc]; norm_num
    have hneg : eX < 0 := by
      by_contra hcon
      have h0 : 0 ≤ eX := not_lt.mp hcon
      have hY0 : eY = -(1 / 2) := by linarith only [hk', h0, hY1, hZ1]
      have hX0 : eX = 0 := by linarith only [hk', h0, hY1, hZ1]
      rw [hX0, abs_zero] at hY
      linarith only [hY, hY3, hY0]
    have habs : |eX| = -eX := abs_of_neg hneg
    rw [habs] at hY hZ
    refine ⟨fun _ => hneg, fun h => by omega, eX, ?_⟩
    have hkc : (k : F) = -1 := by rw [hc]; norm_num
    rw [hkc]
    refine ⟨by linarith only, by linarith only, by linarith only [hY, hY3],
      by linarith only [hX1, hY2], by linarith only [hZ, hZ3], by linarith only [hX1, hZ2]⟩
  · refine ⟨fun h => by omega, fun h => by omega, -(1 / 2), ?_⟩
    have hkc : (k : F) = 0 := by rw [hc]; norm_num
    rw [hkc]
    refine ⟨by linarith only [hX1], by linarith only [hX2], by linarith only [hY1],
      by linarith only [hY2], by linarith only [hZ1], by linarith only [hZ2]⟩
  · have hk' : eX + eY + eZ = 1 := by rw [← hk, hc]; norm_num
    have hpos : 0 < eX := by
      by_contra hcon
      have h0 : eX ≤ 0 := not_lt.mp hcon
      have hY0 : eY = 1 / 2 := by linarith only [hk', h0, hY2, hZ2]
      have hX0 : eX = 0 := by linarith only [hk', h0, hY2, hZ2]
      rw [hX0, abs_zero] at hY
      linarith only [hY, hY4, hY0]
    have habs : |eX| = eX := abs_of_pos hpos
    rw [habs] at hY hZ
    refine ⟨fun h => by omega, fun _ => hpos, eX - 1, ?_⟩
    have hkc : (k : F) = 1 := by rw [hc]; norm_num
    rw [hkc]
    refine ⟨by linarith only, by linarith only, by linarith only [hX2, hY1],
      by linarith only [hY, hY4], by linarith only [hX2, hZ1], by linarith only [hZ, hZ4]⟩

/-- Recomputing an in-range rounded coordinate `X` as `X - k` stays in the
`int64` range when the move is towards a fractional value in that range. -/
theorem recomputed_inInt64 (x : F) (X k : Int) (hx : fitsInt64 x) (hX : inInt64 X)
    (hk : k = -1 ∨ k = 0 ∨ k = 1) (hneg : k = -1 → (X : F) - x < 0)
    (hpos : k = 1 → 0 < (X : F) - x) : inInt64 (X - k) := by
  obtain ⟨hlo, hhi⟩ := hx
  unfold inInt64 at hX ⊢
  rcases hk with hc | hc | hc
  · have h1 := hneg hc
    have h2 : (X : F) < ((9223372036854775807 : Int) : F) := by push_cast; linarith
    have h3 : X < 9223372036854775807 := by exact_mod_cast h2
    omega
  · omega
  · have h1 := hpos hc
    have h2 : ((-9223372036854775808 : Int) : F) < (X : F) := by push_cast; linarith
    have h3 : -9223372036854775808 < X := by exact_mod_cast h2
    omega

/-- C1. Cube rounding returns a nearest hex: in exact arithmetic, for every
fractional hex whose three coordinates lie within the `int64` range and for
every integer hex `h`, the hex `ToHex f` is at least as close to `f` as `h` is,
closeness being the sum of the squared differences of the q, r and s
coordinates. -/
theorem ToHex_nearest (fhex : FractionalHex F) (hq : fitsInt64 fhex.Q)
    (hr : fitsInt64 fhex.R) (hs : fitsInt64 fhex.S) (h : Hex) :
    planeDist2 fhex fhex.ToHex ≤ planeDist2 fhex h := by
  obtain ⟨hAin, hA1, hA2⟩ := round_spec fhex.Q hq
  obtain ⟨hBin, hB1, hB2⟩ := round_spec fhex.R hr
  obtain ⟨hCin, hC1, hC2⟩ := round_spec fhex.S hs
  have hsum : fhex.Q + fhex.R + fhex.S = 0 := by
    unfold FractionalHex.Q FractionalHex.R FractionalHex.S; ring
  unfold FractionalHex.ToHex
  generalize round fhex.Q = A at *
  generalize round fhex.R = B at *
  generalize round fhex.S = C at *
  have hk : ((A + B + C : Int) : F)
      = ((A : F) - fhex.Q) + ((B : F) - fhex.R) + ((C : F) - fhex.S) := by
    push_cast; linarith only [hsum]
  have hcases := round_sum_cases _ _ _ (A + B + C) hk hA1 hA2 hB1 hB2 hC1 hC2
  simp only []
  split_ifs with h1 h2
  · -- the q coordinate is recomputed
    obtain ⟨h1a, h1b⟩ := h1
    obtain ⟨hn, hp, m, w1, w2, w3, w4, w5, w6⟩ :=
      window_of_max _ _ _ (A + B + C) hk hA1 hA2 hB1 hB2 hC1 hC2 (le_of_lt h1a) (le_of_lt h1b)
    have hin := recomputed_inInt64 fhex.Q A (A + B + C) hq hAin hcases hn hp
    have hq' : wrap64 (-(wrap64 (B + C))) = A - (A + B + C) := by
      rw [wrap64_neg_wrap64_add]
      have : -(B + C) = A - (A + B + C) := by ring
      rw [this]
      exact wrap64_of_inInt64 hin
    rw [hq']
    push_cast at w1 w2
    apply planeDist2_le_of_window fhex _ h m
    · show m ≤ ((A - (A + B + C) : Int) : F) - fhex.Q
      push_cast; linarith only [w1]
    · show ((A - (A + B + C) : Int) : F) - fhex.Q ≤ m + 1
      push_cast; linarith only [w2]
    · exact w3
    · exact w4
    · show m ≤ ((-(A - (A + B + C) + B) : Int) : F) - fhex.S
      push_cast; linarith only [w5]
    · show ((-(A - (A + B + C) + B) : Int) : F) - fhex.S ≤ m + 1
      push_cast; linarith only [w6]
  · -- the r coordinate is recomputed
    have h1' : |(A : F) - fhex.Q| ≤ |(B : F) - fhex.R| := by
      by_contra hcon
      push_neg at hcon
      exact h1 ⟨hcon, lt_trans h2 hcon⟩
    have hk2 : ((A + B + C : Int) : F)
        = ((B : F) - fhex.R) + ((A : F) - fhex.Q) + ((C : F) - fhex.S) := by
      rw [hk]; ring
    obtain ⟨hn, hp, m, w1, w2, w3, w4, w5, w6⟩ :=
      window_of_max _ _ _ (A + B + C) hk2 hB1 hB2 hA1 hA2 hC1 hC2 h1' (le_of_lt h2)
    have hin := recomputed_inInt64 fhex.R B (A + B + C) hr hBin hcases hn hp
    have hr' : wrap64 (-(wrap64 (A + C))) = B - (A + B + C) := by
      rw [wrap64_neg_wrap64_add]
      have : -(A + C) = B - (A + B + C) := by ring
      rw [this]
      exact wrap64_of_inInt64 hin
    rw [hr']
    push_cast at w1 w2
    apply planeDist2_le_of_window fhex _ h m
    · exact w3
    · exact w4
    · show m ≤ ((B - (A + B + C) : Int) : F) - fhex.R
      push_cast; linarith only [w1]
    · show ((B - (A + B + C) : Int) : F) - fhex.R ≤ m + 1
      push_cast; linarith only [w2]
    · show m ≤ ((-(A + (B - (A + B + C))) : Int) : F) - fhex.S
      push_cast; linarith only [w5]
    · show ((-(A + (B - (A + B + C))) : Int) : F) - fhex.S ≤ m + 1
      push_cast; linarith only [w6]
  · -- the s coordinate is recomputed (implicitly: only q and r are stored)
    have h2' : |(B : F) - fhex.R| ≤ |(C : F) - fhex.S| := not_lt.mp h2
    have h1' : |(A : F) - fhex.Q| ≤ |(C : F) - fhex.S| := by
      by_contra hcon
      push_neg at hcon
      exact h1 ⟨lt_of_le_of_lt h2' hcon, hcon⟩
    have hk3 : ((A + B + C : Int) : F)
        = ((C : F) - fhex.S) + ((A : F) - fhex.Q) + ((B : F) - fhex.R) := by
      rw [hk]; ring
    obtain ⟨hn, hp, m, w1, w2, w3, w4, w5, w6⟩ :=
      window_of_max _ _ _ (A + B + C) hk3 hC1 hC2 hA1 hA2 hB1 hB2 h1' h2'
    push_cast at w1 w2
    apply planeDist2_le_of_window fhex _ h m
    · exact w3
    · exact w4
    · exact w5
    · exact w6
    · show m ≤ ((-(A + B) : Int) : F) - fhex.S
      push_cast; linarith only [w1]
    · show ((-(A + B) : Int) : F) - fhex.S ≤ m + 1
      push_cast; linarith only [w2]

end ExactLemmas

/-! ### `HexNeighbors` -/

theorem max_eq (a b : Int) : max a b = Max.max a b := by
  unfold max; split <;> omega

theorem min_eq (a b : Int) : min a b = Min.min a b := by
  unfold min; split <;> omega

theorem length_intRange (lo : Int) (n : Nat) : (intRange lo n).length = n := by
  induction n generalizing lo with
  | zero => rfl
  | succ n ih => simp [intRange, ih]

theorem mem_intRange {x lo : Int} {n : Nat} : x ∈ intRange lo n ↔ lo ≤ x ∧ x < lo + n := by
  induction n generalizing lo with
  | zero => simp [intRange]
  | succ n ih =>
    simp only [intRange, List.mem_cons, ih]
    push_cast
    omega

theorem pairwise_intRange (lo : Int) (n : Nat) : (intRange lo n).Pairwise (· < ·) := by
  induction n generalizing lo with
  | zero => simp [intRange]
  | succ n ih =>
    simp only [intRange, List.pairwise_cons]
    refine ⟨fun a ha => ?_, ih _⟩
    have := (mem_intRange.mp ha).1
    omega

theorem intRange_append (lo : Int) (a b : Nat) :
    intRange lo (a + b) = intRange lo a ++ intRange (lo + a) b := by
  induction a generalizing lo with
  | zero => simp [intRange]
  | succ a ih =>
    have : a + 1 + b = (a + b) + 1 := by omega
    rw [this]
    simp only [intRange, List.cons_append, ih]
    congr 2
    push_cast
    ring_nf

theorem neighborsRow_eq (hex : Hex) (q : Int) (z : Hex) (rs : List Int) (pre : List Hex) (k : Nat)
    (hlen : (rs.filter (fun r => ¬ (q = 0 ∧ r = 0))).length ≤ k) :
    neighborsRow hex q rs (pre ++ List.replicate k z, pre.length)
      = Except.ok (pre ++ ((rs.filter (fun r => ¬ (q = 0 ∧ r = 0))).map
            (fun r => offsetHex hex (q, r)))
          ++ List.replicate (k - (rs.filter (fun r => ¬ (q = 0 ∧ r = 0))).length) z,
        pre.length + (rs.filter (fun r => ¬ (q = 0 ∧ r = 0))).length) := by
  induction rs generalizing pre k with
  | nil => simp [neighborsRow]
  | cons r rs ih =>
    by_cases hz : q = 0 ∧ r = 0
    · have hf : (List.filter (fun r => decide ¬(q = 0 ∧ r = 0)) (r :: rs))
          = List.filter (fun r => decide ¬(q = 0 ∧ r = 0)) rs := by
        rw [List.filter_cons]; simp [hz]
      rw [hf] at hlen ⊢
      rw [neighborsRow, if_pos hz]
      exact ih pre k hlen
    · have hf : (List.filter (fun r => decide ¬(q = 0 ∧ r = 0)) (r :: rs))
          = r :: List.filter (fun r => decide ¬(q = 0 ∧ r = 0)) rs := by
        rw [List.filter_cons]; simp [hz]
      rw [hf] at hlen ⊢
      simp only [List.length_cons] at hlen
      obtain ⟨k', rfl⟩ : ∃ k', k = k' + 1 := ⟨k - 1, by omega⟩
      have hi : pre.length < (pre ++ List.replicate (k' + 1) z).length := by
        simp
      rw [neighborsRow, if_neg hz, if_pos hi]
      have hset : (pre ++ List.replicate (k' + 1) z).set pre.length
            (MakeHex (wrap64 (q + hex.Q)) (wrap64 (r + hex.R)))
          = (pre ++ [offsetHex hex (q, r)]) ++ List.replicate k' z := by
        rw [List.set_append_right _ _ (le_refl _)]
        simp [List.replicate_succ, offsetHex]
      have h := ih (pre ++ [offsetHex hex (q, r)]) k' (by omega)
      rw [List.length_append, List.length_singleton] at h
      rw [hset, h]
      simp only [List.map_cons, List.length_cons, List.append_assoc, List.singleton_append,
        Nat.add_sub_add_right]
      congr 2
      omega


theorem scan_bounds (L q : Int) (h0 : 0 ≤ L) (h1 : L ≤ 4611686018427387903)
    (hq : -L ≤ q ∧ q ≤ L) :
    max (wrap64 (-L)) (wrap64 (wrap64 (-q) - L)) = Max.max (-L) (-q - L)
      ∧ min L (wrap64 (wrap64 (-q) + L)) = Min.min L (-q + L)
      ∧ Min.min L (-q + L) ≠ maxInt64 := by
  rw [max_eq, min_eq]
  have e1 : wrap64 (-L) = -L := by unfold wrap64; omega
  have e2 : wrap64 (-q) = -q := by unfold wrap64; omega
  have e3 : wrap64 (-q - L) = -q - L := by unfold wrap64; omega
  have e4 : wrap64 (-q + L) = -q + L := by unfold wrap64; omega
  rw [e2, e1, e3, e4]
  refine ⟨rfl, rfl, ?_⟩
  unfold maxInt64
  omega

theorem neighborsScan_eq (hex : Hex) (L : Int) (z : Hex) (h0 : 0 ≤ L)
    (h1 : L ≤ 4611686018427387903) (qs : List Int) (hqs : ∀ q ∈ qs, -L ≤ q ∧ q ≤ L)
    (pre : List Hex) (k : Nat) (hlen : (qs.flatMap (scanRow L)).length ≤ k) :
    neighborsScan hex L qs (pre ++ List.replicate k z, pre.length)
      = Except.ok (pre ++ (qs.flatMap (scanRow L)).map (offsetHex hex)
          ++ List.replicate (k - (qs.flatMap (scanRow L)).length) z,
        pre.length + (qs.flatMap (scanRow L)).length) := by
  induction qs generalizing pre k with
  | nil => simp [neighborsScan]
  | cons q qs ih =>
    obtain ⟨b1, b2, b3⟩ := scan_bounds L q h0 h1 (hqs q (List.mem_cons_self _ _))
    rw [List.flatMap_cons, List.length_append] at hlen
    have hrow : (scanRow L q).length
        = ((intRange (Max.max (-L) (-q - L))
            (Min.min L (-q + L) + 1 - Max.max (-L) (-q - L)).toNat).filter
              (fun r => ¬ (q = 0 ∧ r = 0))).length := by
      unfold scanRow; rw [List.length_map]
    have hmap : (scanRow L q).map (offsetHex hex)
        = ((intRange (Max.max (-L) (-q - L))
            (Min.min L (-q + L) + 1 - Max.max (-L) (-q - L)).toNat).filter
              (fun r => ¬ (q = 0 ∧ r = 0))).map (fun r => offsetHex hex (q, r)) := by
      unfold scanRow; rw [List.map_map]; rfl
    rw [neighborsScan]
    simp only [b1, b2, forRange, if_neg b3]
    rw [neighborsRow_eq hex q z _ pre k (by rw [← hrow]; omega)]
    simp only []
    rw [← hmap, ← hrow]
    have h := ih (fun a ha => hqs a (List.mem_cons_of_mem _ ha)) (pre ++ (scanRow L q).map (offsetHex hex))
      (k - (scanRow L q).length) (by omega)
    rw [List.length_append, List.length_map] at h
    rw [h]
    simp only [List.flatMap_cons, List.map_append, List.length_append, List.append_assoc,
      Nat.sub_sub, Nat.add_assoc]

theorem scanRow_length_of_ne (L q : Int) (hq : q ≠ 0) :
    (scanRow L q).length = (Min.min L (-q + L) + 1 - Max.max (-L) (-q - L)).toNat := by
  unfold scanRow
  rw [List.length_map, List.filter_eq_self.mpr, length_intRange]
  intro a _
  simp [hq]

theorem filter_skip_length (lo : Int) (n : Nat) (h1 : lo ≤ 0) (h2 : 0 < lo + n) :
    ((intRange lo n).filter (fun r => ¬ ((0 : Int) = 0 ∧ r = 0))).length + 1 = n := by
  induction n generalizing lo with
  | zero => simp at h2; omega
  | succ n ih =>
    rw [intRange, List.filter_cons]
    by_cases hlo : lo = 0
    · subst hlo
      simp only [true_and, not_true_eq_false, decide_False, Bool.false_eq_true, if_false]
      rw [List.filter_eq_self.mpr, length_intRange]
      intro a ha
      have := (mem_intRange.mp ha).1
      simp; omega
    · have hd : decide (¬ ((0 : Int) = 0 ∧ lo = 0)) = true := by simp [hlo]
      rw [if_pos hd, List.length_cons, ih (lo + 1) (by omega) (by push_cast at h2; omega)]

theorem scanRow_length_zero (L : Int) (h0 : 0 ≤ L) : (scanRow L 0).length + 1 = (2 * L + 1).toNat := by
  unfold scanRow
  rw [List.length_map]
  have e : (Min.min L (-0 + L) + 1 - Max.max (-L) (-0 - L)).toNat = (2 * L + 1).toNat := by
    congr 1; omega
  rw [e]
  have h1 : Max.max (-L) (-0 - L) = -L := by omega
  rw [h1]
  apply filter_skip_length
  · omega
  · omega

/-- Length of a run of rows left of the centre: the row lengths grow by one. -/
theorem rows_up_length (L lo : Int) (n : Nat) (h0 : 0 ≤ L) (h1 : -L ≤ lo) (h2 : lo + n ≤ 0) :
    2 * ((intRange lo n).flatMap (scanRow L)).length + n
      = n * (2 * (2 * L + 1 + lo).toNat + n) := by
  induction n generalizing lo with
  | zero => simp [intRange]
  | succ n ih =>
    rw [intRange, List.flatMap_cons, List.length_append,
      scanRow_length_of_ne L lo (by push_cast at h2; omega)]
    have hr : (Min.min L (-lo + L) + 1 - Max.max (-L) (-lo - L)).toNat = (2 * L + 1 + lo).toNat := by
      congr 1; push_cast at h2; omega
    have ih' := ih (lo + 1) (by omega) (by push_cast at h2 ⊢; omega)
    have hs : (2 * L + 1 + (lo + 1)).toNat = (2 * L + 1 + lo).toNat + 1 := by omega
    rw [hs] at ih'
    rw [hr]
    generalize (2 * L + 1 + lo).toNat = c at *
    generalize ((intRange (lo + 1) n).flatMap (scanRow L)).length = S at *
    nlinarith [ih']

/-- Length of a run of rows right of the centre: the row lengths shrink by one. -/
theorem rows_down_length (L lo : Int) (n : Nat) (h0 : 0 < lo) (h2 : lo + n ≤ L + 1) :
    2 * ((intRange lo n).flatMap (scanRow L)).length + n * n
      = n * (2 * (2 * L + 1 - lo).toNat + 1) := by
  induction n generalizing lo with
  | zero => simp [intRange]
  | succ n ih =>
    rw [intRange, List.flatMap_cons, List.length_append,
      scanRow_length_of_ne L lo (by omega)]
    have hr : (Min.min L (-lo + L) + 1 - Max.max (-L) (-lo - L)).toNat = (2 * L + 1 - lo).toNat := by
      congr 1; push_cast at h2; omega
    have ih' := ih (lo + 1) (by omega) (by push_cast at h2 ⊢; omega)
    have hs : (2 * L + 1 - lo).toNat = (2 * L + 1 - (lo + 1)).toNat + 1 := by
      push_cast at h2; omega
    rw [hr, hs]
    generalize (2 * L + 1 - (lo + 1)).toNat = c at *
    generalize ((intRange (lo + 1) n).flatMap (scanRow L)).length = S at *
    nlinarith [ih']

theorem scanOffsets_length (L : Int) (h0 : 0 ≤ L) :
    (scanOffsets L).length = (3 * (L * (L + 1))).toNat := by
  obtain ⟨n, rfl⟩ := Int.eq_ofNat_of_zero_le h0
  unfold scanOffsets
  have e : ((n : Int) + 1 - -(n : Int)).toNat = n + (1 + n) := by omega
  rw [e, intRange_append, intRange_append]
  have z : -(n : Int) + (n : Int) = 0 := by omega
  rw [z]
  simp only [intRange, List.flatMap_append, List.flatMap_cons, List.flatMap_nil, List.length_append,
    List.append_nil]
  have hu := rows_up_length n (-(n : Int)) n h0 (le_refl _) (by omega)
  have hd := rows_down_length n (0 + ((1 : Nat) : Int)) n (by norm_num) (by push_cast; omega)
  have hz := scanRow_length_zero n h0
  have c1 : (2 * (n : Int) + 1 + -(n : Int)).toNat = n + 1 := by omega
  have c2 : (2 * (n : Int) + 1 - (0 + ((1 : Nat) : Int))).toNat = 2 * n := by push_cast; omega
  have c3 : (2 * (n : Int) + 1).toNat = 2 * n + 1 := by omega
  rw [c1] at hu
  rw [c2] at hd
  rw [c3] at hz
  have c4 : (3 * ((n : Int) * ((n : Int) + 1))).toNat = 3 * (n * (n + 1)) := by
    have : 3 * ((n : Int) * ((n : Int) + 1)) = ((3 * (n * (n + 1)) : Nat) : Int) := by push_cast; ring
    rw [this, Int.toNat_ofNat]
  rw [c4]
  generalize ((intRange (-(n : Int)) n).flatMap (scanRow n)).length = S1 at *
  generalize ((intRange (0 + ((1 : Nat) : Int)) n).flatMap (scanRow n)).length = S3 at *
  generalize (scanRow (↑n) 0).length = S2 at *
  nlinarith [hu, hd, hz]

theorem HexNeighborsLoop_eq (hex : Hex) (L : Int) (h0 : 0 ≤ L)
    (hT : 3 * (L * (L + 1)) ≤ 9223372036854775807) :
    HexNeighborsLoop hex L
      = Except.ok ((scanOffsets L).map (offsetHex hex), (3 * (L * (L + 1))).toNat) := by
  have hP : L ≤ L * (L + 1) := by nlinarith
  have hP0 : 0 ≤ L * (L + 1) := by nlinarith
  have hLb : L ≤ 4611686018427387903 := by omega
  have e1 : wrap64 (L + 1) = L + 1 := by unfold wrap64; omega
  have e2 : (L + 1) * L = L * (L + 1) := by ring
  have e3 : wrap64 (L * (L + 1)) = L * (L + 1) := by unfold wrap64; omega
  have e4 : wrap64 (L * (L + 1) * 3) = 3 * (L * (L + 1)) := by unfold wrap64; omega
  have e5 : wrap64 (-L) = -L := by unfold wrap64; omega
  have e6 : ¬ (3 * (L * (L + 1)) < 0) := by omega
  have e7 : L ≠ maxInt64 := by unfold maxInt64; omega
  unfold HexNeighborsLoop
  simp only [e1, e2, e3, e4, e5, if_neg e6, forRange, if_neg e7]
  have hlen := scanOffsets_length L h0
  unfold scanOffsets at hlen
  have h := neighborsScan_eq hex L (MakeHex 0 0) h0 hLb
    (intRange (-L) (L + 1 - -L).toNat)
    (fun q hq => by have := mem_intRange.mp hq; omega) []
    (3 * (L * (L + 1))).toNat (by rw [hlen])
  simp only [List.nil_append, List.length_nil, Nat.zero_add] at h
  rw [h, hlen]
  simp [scanOffsets]

theorem mem_scanRow {L dq : Int} {d : Int × Int} :
    d ∈ scanRow L dq ↔ d.1 = dq ∧ Max.max (-L) (-dq - L) ≤ d.2 ∧ d.2 ≤ Min.min L (-dq + L)
      ∧ ¬ (dq = 0 ∧ d.2 = 0) := by
  unfold scanRow
  simp only [List.mem_map, List.mem_filter, mem_intRange, decide_eq_true_eq]
  constructor
  · rintro ⟨r, ⟨⟨h1, h2⟩, h3⟩, rfl⟩
    refine ⟨rfl, h1, ?_, h3⟩
    simp only []
    omega
  · rintro ⟨h1, h2, h3, h4⟩
    refine ⟨d.2, ⟨⟨h2, by omega⟩, h4⟩, ?_⟩
    rw [← h1]

theorem mem_scanOffsets {L : Int} {d : Int × Int} :
    d ∈ scanOffsets L ↔ -L ≤ d.1 ∧ d.1 ≤ L ∧ Max.max (-L) (-d.1 - L) ≤ d.2
      ∧ d.2 ≤ Min.min L (-d.1 + L) ∧ ¬ (d.1 = 0 ∧ d.2 = 0) := by
  unfold scanOffsets
  simp only [List.mem_flatMap, mem_intRange, mem_scanRow]
  constructor
  · rintro ⟨q, ⟨h1, h2⟩, rfl, h3, h4, h5⟩
    exact ⟨h1, by omega, h3, h4, h5⟩
  · rintro ⟨h1, h2, h3, h4, h5⟩
    exact ⟨d.1, ⟨h1, by omega⟩, rfl, h3, h4, h5⟩

/-- Strict lexicographic order on offsets. -/
theorem pairwise_scanOffsets (L : Int) :
    (scanOffsets L).Pairwise (fun a b => a.1 < b.1 ∨ (a.1 = b.1 ∧ a.2 < b.2)) := by
  unfold scanOffsets
  rw [List.pairwise_flatMap]
  constructor
  · intro q _
    unfold scanRow
    rw [List.pairwise_map]
    apply List.Pairwise.filter
    exact (pairwise_intRange _ _).imp (fun h => Or.inr ⟨rfl, h⟩)
  · apply (pairwise_intRange _ _).imp
    intro a b hab x hx y hy
    have h1 := (mem_scanRow.mp hx).1
    have h2 := (mem_scanRow.mp hy).1
    left; omega

theorem hexDist_offset_iff (c h : Hex) (L : Int) (h0 : 0 ≤ L) :
    (1 ≤ hexDist c h ∧ hexDist c h ≤ L) ↔ (h.q - c.q, h.r - c.r) ∈ scanOffsets L := by
  rw [mem_scanOffsets]
  unfold hexDist
  simp only []
  rcases abs_cases (h.q - c.q) with ⟨e1, _⟩ | ⟨e1, _⟩ <;>
    rcases abs_cases (h.r - c.r) with ⟨e2, _⟩ | ⟨e2, _⟩ <;>
    rcases abs_cases (h.q - c.q + (h.r - c.r)) with ⟨e3, _⟩ | ⟨e3, _⟩ <;>
    rw [e1, e2, e3] <;> omega


theorem HexNeighbors_eq (c : Hex) (L : Int) (h0 : 0 ≤ L)
    (hT : 3 * (L * (L + 1)) ≤ 9223372036854775807) :
    HexNeighbors c L = Except.ok ((scanOffsets L).map (offsetHex c)) := by
  unfold HexNeighbors
  rw [HexNeighborsLoop_eq c L h0 hT]

theorem offsetHex_exact (c : Hex) (L : Int) (h0 : 0 ≤ L)
    (hq1 : -9223372036854775808 ≤ c.q - L) (hq2 : c.q + L ≤ 9223372036854775807)
    (hr1 : -9223372036854775808 ≤ c.r - L) (hr2 : c.r + L ≤ 9223372036854775807)
    (d : Int × Int) (hd : d ∈ scanOffsets L) :
    offsetHex c d = MakeHex (d.1 + c.q) (d.2 + c.r) := by
  obtain ⟨h1, h2, h3, h4, _⟩ := mem_scanOffsets.mp hd
  unfold offsetHex Hex.Q Hex.R
  have e1 : wrap64 (d.1 + c.q) = d.1 + c.q := by unfold wrap64; omega
  have e2 : wrap64 (d.2 + c.r) = d.2 + c.r := by unfold wrap64; omega
  rw [e1, e2]

theorem pairwise_neighbors (c : Hex) (L : Int) (h0 : 0 ≤ L)
    (hq1 : -9223372036854775808 ≤ c.q - L) (hq2 : c.q + L ≤ 9223372036854775807)
    (hr1 : -9223372036854775808 ≤ c.r - L) (hr2 : c.r + L ≤ 9223372036854775807) :
    ((scanOffsets L).map (offsetHex c)).Pairwise Hex.lexLt := by
  rw [List.map_congr_left (offsetHex_exact c L h0 hq1 hq2 hr1 hr2), List.pairwise_map]
  apply (pairwise_scanOffsets L).imp
  intro a b hab
  unfold Hex.lexLt MakeHex
  simp only []
  omega

theorem mem_neighbors_iff (c : Hex) (L : Int) (h0 : 0 ≤ L)
    (hq1 : -9223372036854775808 ≤ c.q - L) (hq2 : c.q + L ≤ 9223372036854775807)
    (hr1 : -9223372036854775808 ≤ c.r - L) (hr2 : c.r + L ≤ 9223372036854775807) (h : Hex) :
    h ∈ (scanOffsets L).map (offsetHex c) ↔ (1 ≤ hexDist c h ∧ hexDist c h ≤ L) := by
  rw [List.map_congr_left (offsetHex_exact c L h0 hq1 hq2 hr1 hr2), hexDist_offset_iff c h L h0,
    List.mem_map]
  constructor
  · rintro ⟨d, hd, rfl⟩
    have : (MakeHex (d.1 + c.q) (d.2 + c.r)).q - c.q = d.1 := by unfold MakeHex; simp
    have : (MakeHex (d.1 + c.q) (d.2 + c.r)).r - c.r = d.2 := by unfold MakeHex; simp
    simpa [MakeHex] using hd
  · intro hd
    refine ⟨_, hd, ?_⟩
    unfold MakeHex
    cases h
    simp

theorem lexLt_ne {a b : Hex} (h : Hex.lexLt a b) : a ≠ b := by
  rintro rfl
  unfold Hex.lexLt at h
  omega

/-- C2 (amended). For every hex `c` and every `layers ≥ 0` such that
`3·layers·(layers+1)` and the coordinates `c.q ± layers`, `c.r ± layers` fit in
`int64`: `HexNeighbors(c, layers)` returns a sequence in which a hex `h` occurs
if and only if `1 ≤ dist(c, h) ≤ layers`, every hex that occurs does so
exactly once, and the sequence has `3·layers·(layers+1)` elements (6 for one
layer). -/
theorem HexNeighbors_iff_dist (c : Hex) (L : Int) (h0 : 0 ≤ L)
    (hT : 3 * (L * (L + 1)) ≤ 9223372036854775807)
    (hq1 : -9223372036854775808 ≤ c.q - L) (hq2 : c.q + L ≤ 9223372036854775807)
    (hr1 : -9223372036854775808 ≤ c.r - L) (hr2 : c.r + L ≤ 9223372036854775807) :
    ∃ l, HexNeighbors c L = Except.ok l
      ∧ (∀ h : Hex, h ∈ l ↔ (1 ≤ hexDist c h ∧ hexDist c h ≤ L))
      ∧ (∀ h ∈ l, l.count h = 1)
      ∧ (l.length : Int) = 3 * L * (L + 1) := by
  refine ⟨_, HexNeighbors_eq c L h0 hT, mem_neighbors_iff c L h0 hq1 hq2 hr1 hr2, ?_, ?_⟩
  · intro h hh
    have hnd : ((scanOffsets L).map (offsetHex c)).Nodup :=
      (pairwise_neighbors c L h0 hq1 hq2 hr1 hr2).imp lexLt_ne
    exact List.count_eq_one_of_mem hnd hh
  · have hP0 : 0 ≤ L * (L + 1) := by nlinarith
    rw [List.length_map, scanOffsets_length L h0, Int.toNat_of_nonneg (by omega)]
    ring

/-- Witness of `HexNeighbors_iff_dist` at the hex (22, 26) with two layers. -/
theorem HexNeighbors_iff_dist_witness :
    ∃ l, HexNeighbors ⟨22, 26⟩ 2 = Except.ok l
      ∧ (∀ h : Hex, h ∈ l ↔ (1 ≤ hexDist ⟨22, 26⟩ h ∧ hexDist ⟨22, 26⟩ h ≤ 2))
      ∧ (∀ h ∈ l, l.count h = 1)
      ∧ (l.length : Int) = 3 * 2 * (2 + 1) :=
  HexNeighbors_iff_dist ⟨22, 26⟩ 2 (by decide) (by decide) (by decide) (by decide)
    (by decide) (by decide)

/-- C2, as stated, fails at the hex (2^63 - 1, 0) with one layer: the result
contains the hex (-2^63, 0), whose distance from the centre is not 1. -/
theorem HexNeighbors_iff_dist_counterexample :
    ∃ l, HexNeighbors ⟨9223372036854775807, 0⟩ 1 = Except.ok l
      ∧ (⟨-9223372036854775808, 0⟩ : Hex) ∈ l
      ∧ ¬ (hexDist ⟨9223372036854775807, 0⟩ ⟨-9223372036854775808, 0⟩ ≤ 1) := by
  refine ⟨_, HexNeighbors_eq _ 1 (by decide) (by decide), ?_, ?_⟩
  · decide
  · unfold hexDist
    norm_num

/-- C3 (amended). For every hex and every `layers ≥ 1` with
`3·layers·(layers+1)` within `int64`: the scan loop of `HexNeighbors` returns,
the returned sequence has length `3·layers·(layers+1)`, and the final write
index equals that length (the writes, at consecutive indices from 0, fill every
slot and none falls outside the slice). -/
theorem HexNeighbors_length (hex : Hex) (L : Int) (h1 : 1 ≤ L)
    (hT : 3 * (L * (L + 1)) ≤ 9223372036854775807) :
    ∃ l i, HexNeighborsLoop hex L = Except.ok (l, i) ∧ HexNeighbors hex L = Except.ok l
      ∧ (l.length : Int) = 3 * L * (L + 1) ∧ i = l.length := by
  have h0 : 0 ≤ L := by omega
  have hlen := scanOffsets_length L h0
  have hP0 : 0 ≤ L * (L + 1) := by nlinarith
  refine ⟨_, _, HexNeighborsLoop_eq hex L h0 hT, HexNeighbors_eq hex L h0 hT, ?_, ?_⟩
  · rw [List.length_map, hlen, Int.toNat_of_nonneg (by omega)]
    ring
  · rw [List.length_map, hlen]

/-- Witness of `HexNeighbors_length` at the hex (22, 26) with two layers. -/
theorem HexNeighbors_length_witness :
    ∃ l i, HexNeighborsLoop ⟨22, 26⟩ 2 = Except.ok (l, i)
      ∧ HexNeighbors ⟨22, 26⟩ 2 = Except.ok l
      ∧ (l.length : Int) = 3 * 2 * (2 + 1) ∧ i = l.length :=
  HexNeighbors_length ⟨22, 26⟩ 2 (by decide) (by decide)

/-- C3, as stated, fails at `layers = 2^31`: `(layers+1)*layers*3` overflows
`int64` to a negative length, `make` panics and no sequence is returned. -/
theorem HexNeighbors_length_counterexample :
    (1 : Int) ≤ 2147483648
      ∧ HexNeighbors ⟨0, 0⟩ 2147483648 = Except.error Failure.makeSliceLen
      ∧ ¬ ∃ l, HexNeighbors ⟨0, 0⟩ 2147483648 = Except.ok l := by
  have h : HexNeighbors ⟨0, 0⟩ 2147483648 = Except.error Failure.makeSliceLen := by
    rfl
  refine ⟨by decide, h, ?_⟩
  rintro ⟨l, hl⟩
  rw [h] at hl
  cases hl

/-! ### The coder -/

theorem interleave_lt (n a b : Nat) : interleave n a b < 4 ^ n := by
  induction n generalizing a b with
  | zero => simp [interleave]
  | succ n ih =>
    have h := ih (a / 2) (b / 2)
    rw [interleave, pow_succ]
    omega

theorem deinterleave_interleave (n a b : Nat) (ha : a < 2 ^ n) (hb : b < 2 ^ n) :
    deinterleave n (interleave n a b) = (a, b) := by
  induction n generalizing a b with
  | zero =>
    simp at ha hb
    simp [interleave, deinterleave, ha, hb]
  | succ n ih =>
    rw [pow_succ] at ha hb
    have h := ih (a / 2) (b / 2) (by omega) (by omega)
    have hdiv : interleave (n + 1) a b / 4 = interleave n (a / 2) (b / 2) := by
      rw [interleave]; omega
    have hm1 : interleave (n + 1) a b % 2 = a % 2 := by
      rw [interleave]; omega
    have hm2 : interleave (n + 1) a b / 2 % 2 = b % 2 := by
      rw [interleave]; omega
    rw [deinterleave, hdiv, h, hm1, hm2]
    simp only [Prod.mk.injEq]
    omega

theorem unshiftSign_shiftSign (m : Morton64) (v : Int) (hv : m.inRange v) :
    ∃ u, m.shiftSign v = Except.ok u ∧ u < 2 ^ m.bits ∧ m.unshiftSign u = v := by
  have hpos : 0 < 2 ^ (m.bits - 1) := Nat.two_pow_pos _
  have hpow : 2 ^ m.bits = 2 * 2 ^ (m.bits - 1) := by
    have : m.bits = (m.bits - 1) + 1 := by have := m.bits_pos; omega
    conv_lhs => rw [this, pow_succ]
    ring
  unfold Morton64.shiftSign
  rw [if_pos hv]
  unfold Morton64.inRange at hv
  unfold Morton64.unshiftSign
  generalize 2 ^ (m.bits - 1) = H at *
  by_cases hneg : v < 0
  · rw [if_pos hneg]
    refine ⟨_, rfl, by omega, ?_⟩
    have hlt : (-v).toNat < H := by omega
    have h1 : ((-v).toNat + H) / H = 1 := by
      rw [Nat.add_div_right _ hpos, Nat.div_eq_of_lt hlt]
    have h2 : ((-v).toNat + H) % H = (-v).toNat := by
      rw [Nat.add_mod_right, Nat.mod_eq_of_lt hlt]
    rw [h1, h2]
    simp only [Nat.one_mod, if_true]
    omega
  · rw [if_neg hneg]
    refine ⟨_, rfl, by omega, ?_⟩
    have hlt : v.toNat < H := by omega
    have h1 : v.toNat / H = 0 := Nat.div_eq_of_lt hlt
    have h2 : v.toNat % H = v.toNat := Nat.mod_eq_of_lt hlt
    rw [h1, h2]
    simp only [Nat.zero_mod, if_false]
    norm_num
    omega

theorem four_pow_le (m : Morton64) : 4 ^ m.bits ≤ 18446744073709551616 := by
  have h : 4 ^ m.bits ≤ 4 ^ 32 := Nat.pow_le_pow_right (by decide) m.bits_le
  have e : (4 : Nat) ^ 32 = 18446744073709551616 := by norm_num
  omega

/-- Round trip of the coder on values within its range. -/
theorem SUnpack_SPack (m : Morton64) (q r : Int) (hq : m.inRange q) (hr : m.inRange r) :
    ∃ code, m.SPack q r = Except.ok code ∧ inInt64 code ∧ m.SUnpack code = (q, r) := by
  obtain ⟨uq, e1, b1, d1⟩ := unshiftSign_shiftSign m q hq
  obtain ⟨ur, e2, b2, d2⟩ := unshiftSign_shiftSign m r hr
  have hI : interleave m.bits uq ur < 18446744073709551616 :=
    lt_of_lt_of_le (interleave_lt m.bits uq ur) (four_pow_le m)
  have hde := deinterleave_interleave m.bits uq ur b1 b2
  have hw : inInt64 (wrap64 (interleave m.bits uq ur))
      ∧ (wrap64 (interleave m.bits uq ur) % 18446744073709551616).toNat
        = interleave m.bits uq ur := by
    clear hde d1 d2 e1 e2 b1 b2
    generalize interleave m.bits uq ur = x at hI ⊢
    unfold inInt64 wrap64
    omega
  refine ⟨wrap64 (interleave m.bits uq ur), ?_, hw.1, ?_⟩
  · unfold Morton64.SPack
    rw [e1, e2]
  · unfold Morton64.SUnpack
    simp only [hw.2, hde, d1, d2]

/-- The coder is injective on hexes within its range. -/
theorem SPack_inj (m : Morton64) (q r q' r' : Int) (hq : m.inRange q) (hr : m.inRange r)
    (code : Int) (h1 : m.SPack q r = Except.ok code) (h2 : m.SPack q' r' = Except.ok code)
    (hq' : m.inRange q') (hr' : m.inRange r') : q = q' ∧ r = r' := by
  obtain ⟨c1, e1, _, u1⟩ := SUnpack_SPack m q r hq hr
  obtain ⟨c2, e2, _, u2⟩ := SUnpack_SPack m q' r' hq' hr'
  rw [h1] at e1
  rw [h2] at e2
  cases e1
  cases e2
  rw [u1] at u2
  simpa using u2

/-- A successful encoding means that both values are within the range. -/
theorem inRange_of_SPack (m : Morton64) (q r code : Int) (h : m.SPack q r = Except.ok code) :
    m.inRange q ∧ m.inRange r := by
  unfold Morton64.SPack at h
  by_cases hq : m.inRange q
  · by_cases hr : m.inRange r
    · exact ⟨hq, hr⟩
    · have : m.shiftSign r = Except.error Failure.encodingOverflow := by
        unfold Morton64.shiftSign; rw [if_neg hr]
      rw [this] at h
      split at h <;> simp_all
  · have : m.shiftSign q = Except.error Failure.encodingOverflow := by
      unfold Morton64.shiftSign; rw [if_neg hq]
    rw [this] at h
    split at h <;> simp_all

/-- C4. For every grid and every hex whose `q` and `r` lie within the coder's
configured per-axis range, the hex has a code and decoding the code gives the
hex back: `HexFromCode(HexToCode(hex)) = hex`. -/
theorem HexFromCode_HexToCode {F : Type} (grid : Grid F) (hex : Hex)
    (h : grid.inCoderRange hex) :
    ∃ code, grid.HexToCode hex = Except.ok code ∧ grid.HexFromCode code = hex := by
  obtain ⟨code, e, _, u⟩ := SUnpack_SPack grid.mort hex.q hex.r h.1 h.2
  refine ⟨code, e, ?_⟩
  unfold Grid.HexFromCode MakeHex
  rw [u]

/-! ### `MakeRegion` -/

section RegionLemmas
variable {F : Type} [LinearOrderedField F] [FloorRing F]

theorem anyInside_spec {α : Type} (test : α → Except Failure Bool) (l : List α) (b : Bool)
    (h : anyInside test l = Except.ok b) : b = true ↔ ∃ a ∈ l, test a = Except.ok true := by
  induction l with
  | nil =>
    simp only [anyInside, Except.ok.injEq] at h
    subst h
    simp
  | cons a as ih =>
    rw [anyInside] at h
    cases hta : test a with
    | error e => rw [hta] at h; cases h
    | ok t =>
      cases t with
      | true =>
        rw [hta] at h
        simp only [Except.ok.injEq] at h
        subst h
        simp [hta]
      | false =>
        rw [hta] at h
        simp only at h
        rw [ih h]
        simp [hta]

theorem hexCovered_spec (nextUp : F → F) (grid : Grid F) (ring : List (Point F)) (hex : Hex)
    (b : Bool) (h : hexCovered nextUp grid ring hex = Except.ok b) :
    b = true ↔ coveredBy nextUp grid ring hex := by
  unfold hexCovered at h
  simp only at h
  unfold coveredBy
  cases h1 : anyInside (fun c => pointInGeometry nextUp ring c) (List.ofFn (grid.HexCorners hex)) with
  | error e => rw [h1] at h; cases h
  | ok t =>
    have s1 := anyInside_spec _ _ _ h1
    simp only [List.mem_ofFn, Set.mem_range, exists_exists_eq_and] at s1
    cases t with
    | true =>
      rw [h1] at h
      simp only [Except.ok.injEq] at h
      subst h
      simp only [true_iff]
      exact Or.inl (s1.mp rfl)
    | false =>
      rw [h1] at h
      simp only at h
      have s2 := anyInside_spec _ _ _ h
      rw [s2]
      constructor
      · intro hx; exact Or.inr hx
      · rintro (hx | hx)
        · have := s1.mpr hx
          cases this
        · exact hx

theorem regionRow_spec (nextUp : F → F) (grid : Grid F) (ring : List (Point F)) (q : Int)
    (rs : List Int) (acc res : List Hex)
    (h : regionRow nextUp grid ring q rs acc = Except.ok res) :
    ∃ added, res = acc ++ added ∧ added.Sublist (rs.map (MakeHex q))
      ∧ ∀ x, x ∈ added ↔ ∃ r ∈ rs, x = MakeHex q r ∧ coveredBy nextUp grid ring x := by
  induction rs generalizing acc with
  | nil =>
    simp only [regionRow, Except.ok.injEq] at h
    exact ⟨[], by simp [h], by simp, by simp⟩
  | cons r rs ih =>
    rw [regionRow] at h
    cases hc : hexCovered nextUp grid ring (MakeHex q r) with
    | error e => rw [hc] at h; cases h
    | ok t =>
      have sc := hexCovered_spec nextUp grid ring _ _ hc
      cases t with
      | true =>
        rw [hc] at h
        simp only at h
        obtain ⟨added, e1, e2, e3⟩ := ih _ h
        refine ⟨MakeHex q r :: added, by simp [e1], ?_, ?_⟩
        · simpa using e2.cons₂ (MakeHex q r)
        · intro x
          simp only [List.mem_cons, e3]
          constructor
          · rintro (hx | ⟨r', hr', hx⟩)
            · exact ⟨r, Or.inl rfl, hx, by rw [hx]; exact sc.mp rfl⟩
            · exact ⟨r', Or.inr hr', hx⟩
          · rintro ⟨r', hr' | hr', hx⟩
            · left; rw [hx.1, hr']
            · right; exact ⟨r', hr', hx⟩
      | false =>
        rw [hc] at h
        simp only at h
        obtain ⟨added, e1, e2, e3⟩ := ih _ h
        refine ⟨added, e1, ?_, ?_⟩
        · simpa using e2.cons (MakeHex q r)
        · intro x
          simp only [List.mem_cons, e3]
          constructor
          · rintro ⟨r', hr', hx⟩
            exact ⟨r', Or.inr hr', hx⟩
          · rintro ⟨r', hr' | hr', hx⟩
            · exfalso
              rw [hx.1, hr'] at hx
              have := sc.mpr hx.2
              cases this
            · exact ⟨r', hr', hx⟩

theorem regionScan_spec (nextUp : F → F) (grid : Grid F) (ring : List (Point F)) (r1 r2 : Int)
    (qs : List Int) (acc res : List Hex)
    (h : regionScan nextUp grid ring r1 r2 qs acc = Except.ok res) :
    ∃ added, res = acc ++ added ∧ added.Sublist (boxHexes qs r1 r2)
      ∧ ∀ x, x ∈ added ↔ ∃ q ∈ qs, ∃ r, r1 ≤ r ∧ r ≤ r2 ∧ x = MakeHex q r
          ∧ coveredBy nextUp grid ring x := by
  induction qs generalizing acc with
  | nil =>
    simp only [regionScan, Except.ok.injEq] at h
    exact ⟨[], by simp [h], by simp [boxHexes], by simp⟩
  | cons q qs ih =>
    rw [regionScan] at h
    unfold forRange at h
    by_cases hmax : r2 = maxInt64
    · rw [if_pos hmax] at h
      cases h
    · rw [if_neg hmax] at h
      simp only at h
      cases hrow : regionRow nextUp grid ring q (intRange r1 (r2 + 1 - r1).toNat) acc with
      | error e => rw [hrow] at h; cases h
      | ok mid =>
        rw [hrow] at h
        simp only at h
        obtain ⟨a1, e1, e2, e3⟩ := regionRow_spec nextUp grid ring q _ acc mid hrow
        obtain ⟨a2, f1, f2, f3⟩ := ih _ h
        refine ⟨a1 ++ a2, by rw [f1, e1, List.append_assoc], ?_, ?_⟩
        · unfold boxHexes
          rw [List.flatMap_cons]
          exact e2.append f2
        · intro x
          simp only [List.mem_append, e3, f3, mem_intRange, List.mem_cons]
          constructor
          · rintro (⟨r, hr, hx⟩ | ⟨q', hq', r, hr1, hr2, hx⟩)
            · exact ⟨q, Or.inl rfl, r, hr.1, by omega, hx⟩
            · exact ⟨q', Or.inr hq', r, hr1, hr2, hx⟩
          · rintro ⟨q', hq' | hq', r, hr1, hr2, hx⟩
            · left
              subst hq'
              exact ⟨r, ⟨hr1, by omega⟩, hx⟩
            · right
              exact ⟨q', hq', r, hr1, hr2, hx⟩

theorem pairwise_boxHexes (qs : List Int) (hqs : qs.Pairwise (· < ·)) (r1 r2 : Int) :
    (boxHexes qs r1 r2).Pairwise Hex.lexLt := by
  unfold boxHexes
  rw [List.pairwise_flatMap]
  constructor
  · intro q _
    rw [List.pairwise_map]
    exact (pairwise_intRange _ _).imp (fun h => Or.inr ⟨rfl, h⟩)
  · apply hqs.imp
    intro a b hab x hx y hy
    simp only [List.mem_map] at hx hy
    obtain ⟨_, _, rfl⟩ := hx
    obtain ⟨_, _, rfl⟩ := hy
    exact Or.inl hab


theorem boundingBox_fold (grid : Grid F) (rest pre : List (Point F)) (box : Int × Int × Int × Int)
    (h1 : isMinOf (pre.map (fun v => (grid.HexAt v).q)) box.1)
    (h2 : isMaxOf (pre.map (fun v => (grid.HexAt v).q)) box.2.1)
    (h3 : isMinOf (pre.map (fun v => (grid.HexAt v).r)) box.2.2.1)
    (h4 : isMaxOf (pre.map (fun v => (grid.HexAt v).r)) box.2.2.2) :
    isMinOf ((pre ++ rest).map (fun v => (grid.HexAt v).q))
        (rest.foldl (fun box p =>
          (min box.1 (grid.HexAt p).Q, max box.2.1 (grid.HexAt p).Q,
            min box.2.2.1 (grid.HexAt p).R, max box.2.2.2 (grid.HexAt p).R)) box).1
      ∧ isMaxOf ((pre ++ rest).map (fun v => (grid.HexAt v).q))
        (rest.foldl (fun box p =>
          (min box.1 (grid.HexAt p).Q, max box.2.1 (grid.HexAt p).Q,
            min box.2.2.1 (grid.HexAt p).R, max box.2.2.2 (grid.HexAt p).R)) box).2.1
      ∧ isMinOf ((pre ++ rest).map (fun v => (grid.HexAt v).r))
        (rest.foldl (fun box p =>
          (min box.1 (grid.HexAt p).Q, max box.2.1 (grid.HexAt p).Q,
            min box.2.2.1 (grid.HexAt p).R, max box.2.2.2 (grid.HexAt p).R)) box).2.2.1
      ∧ isMaxOf ((pre ++ rest).map (fun v => (grid.HexAt v).r))
        (rest.foldl (fun box p =>
          (min box.1 (grid.HexAt p).Q, max box.2.1 (grid.HexAt p).Q,
            min box.2.2.1 (grid.HexAt p).R, max box.2.2.2 (grid.HexAt p).R)) box).2.2.2 := by
  induction rest generalizing pre box with
  | nil => simpa using ⟨h1, h2, h3, h4⟩
  | cons p rest ih =>
    rw [List.foldl_cons]
    have e : pre ++ p :: rest = (pre ++ [p]) ++ rest := by simp
    rw [e]
    unfold isMinOf at h1 h3
    unfold isMaxOf at h2 h4
    apply ih
    · unfold isMinOf
      simp only [Hex.Q, min_eq, List.map_append, List.map_cons, List.map_nil, List.mem_append,
        List.mem_singleton]
      refine ⟨?_, ?_⟩
      · rcases min_choice box.1 (grid.HexAt p).q with hm | hm
        · left; rw [hm]; exact h1.1
        · right; exact hm
      · rintro v (hv | hv)
        · exact le_trans (min_le_left _ _) (h1.2 v hv)
        · rw [hv]; exact min_le_right _ _
    · unfold isMaxOf
      simp only [Hex.Q, max_eq, List.map_append, List.map_cons, List.map_nil, List.mem_append,
        List.mem_singleton]
      refine ⟨?_, ?_⟩
      · rcases max_choice box.2.1 (grid.HexAt p).q with hm | hm
        · left; rw [hm]; exact h2.1
        · right; exact hm
      · rintro v (hv | hv)
        · exact le_trans (h2.2 v hv) (le_max_left _ _)
        · rw [hv]; exact le_max_right _ _
    · unfold isMinOf
      simp only [Hex.R, min_eq, List.map_append, List.map_cons, List.map_nil, List.mem_append,
        List.mem_singleton]
      refine ⟨?_, ?_⟩
      · rcases min_choice box.2.2.1 (grid.HexAt p).r with hm | hm
        · left; rw [hm]; exact h3.1
        · right; exact hm
      · rintro v (hv | hv)
        · exact le_trans (min_le_left _ _) (h3.2 v hv)
        · rw [hv]; exact min_le_right _ _
    · unfold isMaxOf
      simp only [Hex.R, max_eq, List.map_append, List.map_cons, List.map_nil, List.mem_append,
        List.mem_singleton]
      refine ⟨?_, ?_⟩
      · rcases max_choice box.2.2.2 (grid.HexAt p).r with hm | hm
        · left; rw [hm]; exact h4.1
        · right; exact hm
      · rintro v (hv | hv)
        · exact le_trans (h4.2 v hv) (le_max_left _ _)
        · rw [hv]; exact le_max_right _ _

/-- The box computed by `MakeRegion` holds the componentwise minima and maxima
of the hexes of the vertices. -/
theorem boundingBox_spec (grid : Grid F) (first : Point F) (rest : List (Point F)) :
    isMinOf ((first :: rest).map (fun v => (grid.HexAt v).q)) (boundingBox grid first rest).1
      ∧ isMaxOf ((first :: rest).map (fun v => (grid.HexAt v).q))
          (boundingBox grid first rest).2.1
      ∧ isMinOf ((first :: rest).map (fun v => (grid.HexAt v).r))
          (boundingBox grid first rest).2.2.1
      ∧ isMaxOf ((first :: rest).map (fun v => (grid.HexAt v).r))
          (boundingBox grid first rest).2.2.2 := by
  have h := boundingBox_fold grid rest [first]
    ((grid.HexAt first).Q, (grid.HexAt first).Q, (grid.HexAt first).R, (grid.HexAt first).R)
    (by simp [isMinOf, Hex.Q]) (by simp [isMaxOf, Hex.Q]) (by simp [isMinOf, Hex.R])
    (by simp [isMaxOf, Hex.R])
  exact h

theorem buildLookup_spec (grid : Grid F) (hexes : List Hex) (i : Nat) (m0 m : Int → Option Nat)
    (h : buildLookup grid hexes i m0 = Except.ok m) :
    (∀ x ∈ hexes, grid.inCoderRange x)
      ∧ ∀ code, (m code).isSome = true
          ↔ ((m0 code).isSome = true ∨ ∃ x ∈ hexes, grid.HexToCode x = Except.ok code) := by
  induction hexes generalizing i m0 with
  | nil =>
    simp only [buildLookup, Except.ok.injEq] at h
    subst h
    simp
  | cons x rest ih =>
    rw [buildLookup] at h
    cases hx : grid.HexToCode x with
    | error e => rw [hx] at h; cases h
    | ok c =>
      rw [hx] at h
      simp only at h
      obtain ⟨r1, r2⟩ := ih _ _ h
      have hin : grid.inCoderRange x := inRange_of_SPack grid.mort x.q x.r c hx
      refine ⟨?_, ?_⟩
      · intro y hy
        rcases List.mem_cons.mp hy with rfl | hy
        · exact hin
        · exact r1 y hy
      · intro code
        rw [r2 code]
        by_cases hc : code = c
        · subst hc
          simp only [if_true, Option.isSome_some, true_or, true_iff]
          exact Or.inr ⟨x, List.mem_cons_self _ _, hx⟩
        · simp only [if_neg hc, List.mem_cons]
          constructor
          · rintro (h0 | ⟨y, hy, hyc⟩)
            · exact Or.inl h0
            · exact Or.inr ⟨y, Or.inr hy, hyc⟩
          · rintro (h0 | ⟨y, hy | hy, hyc⟩)
            · exact Or.inl h0
            · exfalso
              subst hy
              rw [hx] at hyc
              cases hyc
              exact hc rfl
            · exact Or.inr ⟨y, hy, hyc⟩

theorem makeRegionOpen_spec (nextUp : F → F) (grid : Grid F) (ring : List (Point F))
    (region : Region F) (h : makeRegionOpen nextUp grid ring = Except.ok region) :
    ∃ first rest qs, ring = first :: rest ∧ region.grid = grid
      ∧ forRange (wrap64 ((boundingBox grid first rest).1 - 1))
          (wrap64 ((boundingBox grid first rest).2.1 + 1)) = some qs
      ∧ regionScan nextUp grid ring (wrap64 ((boundingBox grid first rest).2.2.1 - 1))
          (wrap64 ((boundingBox grid first rest).2.2.2 + 1)) qs [] = Except.ok region.hexes
      ∧ buildLookup grid region.hexes 0 (fun _ => none) = Except.ok region.lookup := by
  unfold makeRegionOpen at h
  cases ring with
  | nil => cases h
  | cons first rest =>
    simp only at h
    cases hq : forRange (wrap64 ((boundingBox grid first rest).1 - 1))
        (wrap64 ((boundingBox grid first rest).2.1 + 1)) with
    | none => rw [hq] at h; cases h
    | some qs =>
      rw [hq] at h
      simp only at h
      cases hs : regionScan nextUp grid (first :: rest)
          (wrap64 ((boundingBox grid first rest).2.2.1 - 1))
          (wrap64 ((boundingBox grid first rest).2.2.2 + 1)) qs [] with
      | error e => rw [hs] at h; cases h
      | ok hexes =>
        rw [hs] at h
        simp only at h
        cases hl : buildLookup grid hexes 0 (fun _ => none) with
        | error e => rw [hl] at h; cases h
        | ok lookup =>
          rw [hl] at h
          simp only [Except.ok.injEq] at h
          subst h
          exact ⟨first, rest, qs, rfl, rfl, hq, hs, hl⟩

theorem MakeRegion_eq_open (nextUp : F → F) (grid : Grid F) (geometry : List (Point F))
    (region : Region F) (h : grid.MakeRegion nextUp geometry = Except.ok region) :
    makeRegionOpen nextUp grid (ringOf geometry) = Except.ok region := by
  cases geometry with
  | nil => cases h
  | cons first tail =>
    unfold Grid.MakeRegion at h
    unfold ringOf
    cases hl : (first :: tail).getLast? with
    | none =>
      rw [hl] at h
      cases h
    | some last =>
      rw [hl] at h
      exact h


theorem wrap64_inInt64 (x : Int) : inInt64 (wrap64 x) := by
  unfold inInt64 wrap64; omega

theorem ToHex_valid (fhex : FractionalHex F) : fhex.ToHex.valid := by
  unfold FractionalHex.ToHex Hex.valid
  have hr : ∀ x : F, inInt64 (round x) := by
    intro x
    unfold round toInt64
    split <;> exact wrap64_inInt64 _
  simp only []
  split_ifs
  · exact ⟨wrap64_inInt64 _, hr _⟩
  · exact ⟨hr _, wrap64_inInt64 _⟩
  · exact ⟨hr _, hr _⟩

theorem round_inInt64 (x : F) : inInt64 (round x) := by
  unfold round toInt64
  split <;> exact wrap64_inInt64 _

theorem Slope_round_inInt64 (x : Slope F) : inInt64 x.round := by
  cases x with
  | finite v => exact round_inInt64 v
  | posInf => exact (by decide : inInt64 minInt64)
  | negInf => exact (by decide : inInt64 minInt64)
  | nan => exact (by decide : inInt64 minInt64)

theorem floatToHex_valid (fq fr : Slope F) : (floatToHex fq fr).valid := by
  unfold floatToHex Hex.valid
  simp only []
  split_ifs
  · exact ⟨wrap64_inInt64 _, Slope_round_inInt64 _⟩
  · exact ⟨Slope_round_inInt64 _, wrap64_inInt64 _⟩
  · exact ⟨Slope_round_inInt64 _, Slope_round_inInt64 _⟩

theorem HexAt_valid (grid : Grid F) (point : Point F) : (grid.HexAt point).valid := by
  unfold Grid.HexAt
  simp only []
  split
  · exact ToHex_valid _
  · exact floatToHex_valid _ _

/-- On a grid whose size has no zero component the divisions of `HexAt` are
finite and `HexAt` is cube rounding of the fractional coordinates. -/
theorem HexAt_of_size_ne_zero (grid : Grid F) (point : Point F) (hx : grid.size.x ≠ 0)
    (hy : grid.size.y ≠ 0) :
    grid.HexAt point
      = (MakeFractionalHex
          (grid.orientation.b 0 * ((point.X - grid.origin.X) / grid.size.X)
            + grid.orientation.b 1 * ((point.Y - grid.origin.Y) / grid.size.Y))
          (grid.orientation.b 2 * ((point.X - grid.origin.X) / grid.size.X)
            + grid.orientation.b 3 * ((point.Y - grid.origin.Y) / grid.size.Y))).ToHex := by
  unfold Grid.HexAt slopeDiv
  have hx0 : ¬ grid.size.X = 0 := hx
  have hy0 : ¬ grid.size.Y = 0 := hy
  simp only [if_neg hx0, if_neg hy0, Slope.scale, Slope.add]

theorem mem_forRange {lo hi : Int} {qs : List Int} (h : forRange lo hi = some qs) (q : Int) :
    q ∈ qs ↔ lo ≤ q ∧ q ≤ hi := by
  unfold forRange at h
  split at h
  · cases h
  · simp only [Option.some.injEq] at h
    subst h
    rw [mem_intRange]
    omega

theorem pairwise_forRange {lo hi : Int} {qs : List Int} (h : forRange lo hi = some qs) :
    qs.Pairwise (· < ·) := by
  unfold forRange at h
  split at h
  · cases h
  · simp only [Option.some.injEq] at h
    subst h
    exact pairwise_intRange _ _

end RegionLemmas

section RegionClaims
variable {F : Type} [LinearOrderedField F] [FloorRing F]

/-- The region of the sample polygon is built. -/
theorem sampleRegion_isOk :
    (sampleGrid.MakeRegion ratNextUp samplePolygon).isOk = true := by
  decide!

/-- C5. For every region built by `MakeRegion` and every hex `h` within the
coder's range, `Contains(h)` returns, and it is true if and only if `h` is an
element of `Hexes()` of the same region. -/
theorem Contains_iff_mem_Hexes (nextUp : F → F) (grid : Grid F) (geometry : List (Point F))
    (region : Region F) (hreg : grid.MakeRegion nextUp geometry = Except.ok region)
    (h : Hex) (hr : grid.inCoderRange h) :
    ∃ b, region.Contains h = Except.ok b ∧ (b = true ↔ h ∈ region.Hexes) := by
  obtain ⟨first, rest, qs, _, hg, _, _, hl⟩ :=
    makeRegionOpen_spec nextUp grid _ region (MakeRegion_eq_open nextUp grid geometry region hreg)
  obtain ⟨hin, hmem⟩ := buildLookup_spec grid region.hexes 0 _ _ hl
  obtain ⟨code, hcode, _, _⟩ := SUnpack_SPack grid.mort h.q h.r hr.1 hr.2
  have hcode' : region.grid.HexToCode h = Except.ok code := by rw [hg]; exact hcode
  refine ⟨(region.lookup code).isSome, ?_, ?_⟩
  · unfold Region.Contains
    rw [hcode']
  · rw [hmem code]
    simp only [Option.isSome_none, Bool.false_eq_true, false_or]
    unfold Region.Hexes
    constructor
    · rintro ⟨x, hx, hxc⟩
      have hxin := hin x hx
      obtain ⟨e1, e2⟩ := SPack_inj grid.mort x.q x.r h.q h.r hxin.1 hxin.2 code hxc hcode
        hr.1 hr.2
      have : x = h := by
        cases x; cases h; simp only [Hex.mk.injEq]; exact ⟨e1, e2⟩
      rw [← this]; exact hx
    · intro hx
      exact ⟨h, hx, hcode⟩

/-- C7. For every polygon on which `MakeRegion` succeeds, `Hexes()` is strictly
increasing in the lexicographic order on (q, r), and contains no hex twice. -/
theorem Hexes_sorted (nextUp : F → F) (grid : Grid F) (geometry : List (Point F))
    (region : Region F) (hreg : grid.MakeRegion nextUp geometry = Except.ok region) :
    region.Hexes.Pairwise Hex.lexLt ∧ region.Hexes.Nodup := by
  obtain ⟨first, rest, qs, _, _, hq, hs, _⟩ :=
    makeRegionOpen_spec nextUp grid _ region (MakeRegion_eq_open nextUp grid geometry region hreg)
  obtain ⟨added, e1, e2, _⟩ := regionScan_spec nextUp grid _ _ _ qs [] region.hexes hs
  have hp : region.Hexes.Pairwise Hex.lexLt := by
    unfold Region.Hexes
    rw [e1, List.nil_append]
    exact (pairwise_boxHexes qs (pairwise_forRange hq) _ _).sublist e2
  exact ⟨hp, hp.imp lexLt_ne⟩


/-- Witness of `Contains_iff_mem_Hexes` on the sample polygon and the hex (0, 0). -/
theorem Contains_iff_mem_Hexes_witness :
    ∃ region, sampleGrid.MakeRegion ratNextUp samplePolygon = Except.ok region
      ∧ sampleGrid.inCoderRange ⟨0, 0⟩
      ∧ ∃ b, region.Contains ⟨0, 0⟩ = Except.ok b ∧ (b = true ↔ (⟨0, 0⟩ : Hex) ∈ region.Hexes) := by
  have hok := sampleRegion_isOk
  cases hreg : sampleGrid.MakeRegion ratNextUp samplePolygon with
  | error e => rw [hreg] at hok; cases hok
  | ok region =>
    have hr : sampleGrid.inCoderRange ⟨0, 0⟩ := by
      unfold Grid.inCoderRange; decide
    exact ⟨region, rfl, hr,
      Contains_iff_mem_Hexes ratNextUp sampleGrid samplePolygon region hreg ⟨0, 0⟩ hr⟩

/-- Witness of `Hexes_sorted` on the sample polygon. -/
theorem Hexes_sorted_witness :
    ∃ region, sampleGrid.MakeRegion ratNextUp samplePolygon = Except.ok region
      ∧ region.Hexes.Pairwise Hex.lexLt ∧ region.Hexes.Nodup := by
  have hok := sampleRegion_isOk
  cases hreg : sampleGrid.MakeRegion ratNextUp samplePolygon with
  | error e => rw [hreg] at hok; cases hok
  | ok region =>
    exact ⟨region, rfl, Hexes_sorted ratNextUp sampleGrid samplePolygon region hreg⟩

/-- C6. For every polygon on which `MakeRegion` succeeds, with `minQ`, `maxQ`,
`minR`, `maxR` the least and greatest `q` and `r` over `HexAt` of the vertices
of the ring (the polygon without a duplicate closing vertex): a hex (q, r) is
in `Hexes()` if and only if it lies in the expanded box, `minQ-1 ≤ q ≤ maxQ+1`
and `minR-1 ≤ r ≤ maxR+1`, and one of its six corners is inside the ring or one
vertex of the ring is inside its six-corner ring, by `pointInGeometry`.  The
four expanded bounds are the `int64` values computed by the code; each equals
the exact `min - 1` or `max + 1` unless that extremum is the smallest or the
largest `int64`. -/
theorem Hexes_iff_box_and_covered (nextUp : F → F) (grid : Grid F)
    (geometry : List (Point F)) (region : Region F)
    (hreg : grid.MakeRegion nextUp geometry = Except.ok region) :
    ∃ minQ maxQ minR maxR : Int,
      isMinOf ((ringOf geometry).map (fun v => (grid.HexAt v).q)) minQ
      ∧ isMaxOf ((ringOf geometry).map (fun v => (grid.HexAt v).q)) maxQ
      ∧ isMinOf ((ringOf geometry).map (fun v => (grid.HexAt v).r)) minR
      ∧ isMaxOf ((ringOf geometry).map (fun v => (grid.HexAt v).r)) maxR
      ∧ (minQ ≠ minInt64 → wrap64 (minQ - 1) = minQ - 1)
      ∧ (maxQ ≠ maxInt64 → wrap64 (maxQ + 1) = maxQ + 1)
      ∧ (minR ≠ minInt64 → wrap64 (minR - 1) = minR - 1)
      ∧ (maxR ≠ maxInt64 → wrap64 (maxR + 1) = maxR + 1)
      ∧ ∀ q r : Int, MakeHex q r ∈ region.Hexes ↔
          (wrap64 (minQ - 1) ≤ q ∧ q ≤ wrap64 (maxQ + 1)
            ∧ wrap64 (minR - 1) ≤ r ∧ r ≤ wrap64 (maxR + 1)
            ∧ coveredBy nextUp grid (ringOf geometry) (MakeHex q r)) := by
  obtain ⟨first, rest, qs, hring, _, hq, hs, _⟩ :=
    makeRegionOpen_spec nextUp grid _ region (MakeRegion_eq_open nextUp grid geometry region hreg)
  obtain ⟨b1, b2, b3, b4⟩ := boundingBox_spec grid first rest
  obtain ⟨added, e1, _, e3⟩ := regionScan_spec nextUp grid _ _ _ qs [] region.hexes hs
  have hval : ∀ l : List (Point F), ∀ m : Int,
      m ∈ l.map (fun v => (grid.HexAt v).q) ∨ m ∈ l.map (fun v => (grid.HexAt v).r) →
        inInt64 m := by
    intro l m hm
    rcases hm with hm | hm
    · obtain ⟨v, _, rfl⟩ := List.mem_map.mp hm
      exact (HexAt_valid grid v).1
    · obtain ⟨v, _, rfl⟩ := List.mem_map.mp hm
      exact (HexAt_valid grid v).2
  have v1 := hval _ _ (Or.inl b1.1)
  have v2 := hval _ _ (Or.inl b2.1)
  have v3 := hval _ _ (Or.inr b3.1)
  have v4 := hval _ _ (Or.inr b4.1)
  rw [hring]
  refine ⟨_, _, _, _, b1, b2, b3, b4, ?_, ?_, ?_, ?_, ?_⟩
  · intro hne; unfold inInt64 at v1; unfold minInt64 at hne; unfold wrap64; omega
  · intro hne; unfold inInt64 at v2; unfold maxInt64 at hne; unfold wrap64; omega
  · intro hne; unfold inInt64 at v3; unfold minInt64 at hne; unfold wrap64; omega
  · intro hne; unfold inInt64 at v4; unfold maxInt64 at hne; unfold wrap64; omega
  · intro q r
    unfold Region.Hexes
    rw [e1, List.nil_append, e3]
    rw [hring] at hs
    constructor
    · rintro ⟨q', hq', r', hr1, hr2, hx, hc⟩
      have hqr : q = q' ∧ r = r' := by
        unfold MakeHex at hx
        simpa using hx
      obtain ⟨rfl, rfl⟩ := hqr
      have := (mem_forRange hq q).mp hq'
      rw [hring] at hc
      exact ⟨this.1, this.2, hr1, hr2, hc⟩
    · rintro ⟨h1, h2, h3, h4, hc⟩
      rw [hring]
      exact ⟨q, (mem_forRange hq q).mpr ⟨h1, h2⟩, r, h3, h4, rfl, hc⟩

/-- Witness of `Hexes_iff_box_and_covered` on the sample polygon. -/
theorem Hexes_iff_box_and_covered_witness :
    ∃ region, sampleGrid.MakeRegion ratNextUp samplePolygon = Except.ok region
      ∧ ∃ minQ maxQ minR maxR : Int,
      isMinOf ((ringOf samplePolygon).map (fun v => (sampleGrid.HexAt v).q)) minQ
      ∧ isMaxOf ((ringOf samplePolygon).map (fun v => (sampleGrid.HexAt v).q)) maxQ
      ∧ isMinOf ((ringOf samplePolygon).map (fun v => (sampleGrid.HexAt v).r)) minR
      ∧ isMaxOf ((ringOf samplePolygon).map (fun v => (sampleGrid.HexAt v).r)) maxR
      ∧ (minQ ≠ minInt64 → wrap64 (minQ - 1) = minQ - 1)
      ∧ (maxQ ≠ maxInt64 → wrap64 (maxQ + 1) = maxQ + 1)
      ∧ (minR ≠ minInt64 → wrap64 (minR - 1) = minR - 1)
      ∧ (maxR ≠ maxInt64 → wrap64 (maxR + 1) = maxR + 1)
      ∧ ∀ q r : Int, MakeHex q r ∈ region.Hexes ↔
          (wrap64 (minQ - 1) ≤ q ∧ q ≤ wrap64 (maxQ + 1)
            ∧ wrap64 (minR - 1) ≤ r ∧ r ≤ wrap64 (maxR + 1)
            ∧ coveredBy ratNextUp sampleGrid (ringOf samplePolygon) (MakeHex q r)) := by
  have hok := sampleRegion_isOk
  cases hreg : sampleGrid.MakeRegion ratNextUp samplePolygon with
  | error e => rw [hreg] at hok; cases hok
  | ok region =>
    exact ⟨region, rfl,
      Hexes_iff_box_and_covered ratNextUp sampleGrid samplePolygon region hreg⟩

/-- C9. Closing a ring does not change the region: for every grid and every
ring `p` with at least two vertices whose first and last vertices differ,
`MakeRegion` of `p` followed by a copy of its first vertex is the same result
(hex sequence and lookup) as `MakeRegion(p)`. -/
theorem MakeRegion_closed_ring (nextUp : F → F) (grid : Grid F) (p : List (Point F))
    (first last : Point F) (hlen : 2 ≤ p.length) (hfirst : p.head? = some first)
    (hlast : p.getLast? = some last) (hne : first ≠ last) :
    grid.MakeRegion nextUp (p ++ [first]) = grid.MakeRegion nextUp p := by
  cases p with
  | nil => simp at hlen
  | cons a tail =>
    simp only [List.head?_cons, Option.some.injEq] at hfirst
    subst hfirst
    have h1 : (a :: tail ++ [a]).getLast? = some a := by
      rw [List.getLast?_append]; simp
    unfold Grid.MakeRegion
    simp only [List.cons_append, hlast]
    rw [← List.cons_append, h1]
    simp only [List.cons_append]
    unfold openRing
    rw [if_pos rfl, if_neg hne, ← List.cons_append, List.dropLast_concat]

/-- Witness of `MakeRegion_closed_ring` on the sample polygon. -/
theorem MakeRegion_closed_ring_witness :
    sampleGrid.MakeRegion ratNextUp (samplePolygon ++ [MakePoint 10 20])
      = sampleGrid.MakeRegion ratNextUp samplePolygon :=
  MakeRegion_closed_ring ratNextUp sampleGrid samplePolygon (MakePoint 10 20) (MakePoint 10 23)
    (by decide) rfl rfl (by unfold MakePoint; simp)

/-- C10 (amended). Passing an empty polygon to `MakeRegion` aborts with the
run-time panic of indexing an empty slice; no `Region` is produced. -/
theorem MakeRegion_empty (nextUp : F → F) (grid : Grid F) :
    grid.MakeRegion nextUp [] = Except.error Failure.indexOutOfRange := by
  rfl

/-- C10, as stated, fails: on the empty polygon the failure of `MakeRegion` is
not the error kind `InvalidArgument`. -/
theorem MakeRegion_empty_counterexample :
    sampleGrid.MakeRegion ratNextUp [] ≠ Except.error Failure.invalidArgument := by
  intro h
  have h' : sampleGrid.MakeRegion ratNextUp [] = Except.error Failure.indexOutOfRange := rfl
  rw [h'] at h
  cases h

end RegionClaims

/-! ### Scan order of `HexNeighbors`, and witnesses -/

/-- Witness of `ToHex_nearest` at the fractional hex (7/10, 7/10), which rounds
to the hex (1, 1), against the hex (1, 0). -/
theorem ToHex_nearest_witness :
    fitsInt64 (FractionalHex.Q (⟨7 / 10, 7 / 10⟩ : FractionalHex ℚ))
      ∧ FractionalHex.ToHex (⟨7 / 10, 7 / 10⟩ : FractionalHex ℚ) = ⟨1, 1⟩
      ∧ planeDist2 (⟨7 / 10, 7 / 10⟩ : FractionalHex ℚ)
          (FractionalHex.ToHex (⟨7 / 10, 7 / 10⟩ : FractionalHex ℚ))
        ≤ planeDist2 (⟨7 / 10, 7 / 10⟩ : FractionalHex ℚ) ⟨1, 0⟩ :=
  ⟨by unfold fitsInt64 FractionalHex.Q; norm_num, by decide!,
    ToHex_nearest ⟨7 / 10, 7 / 10⟩ (by unfold fitsInt64 FractionalHex.Q; norm_num)
      (by unfold fitsInt64 FractionalHex.R; norm_num)
      (by unfold fitsInt64 FractionalHex.S; norm_num) ⟨1, 0⟩⟩

/-- Witness of `HexFromCode_HexToCode` on the grid of the tests at the hex
(20, 26), whose code is 920. -/
theorem HexFromCode_HexToCode_witness :
    sampleGrid.inCoderRange ⟨20, 26⟩
      ∧ sampleGrid.HexToCode ⟨20, 26⟩ = Except.ok 920
      ∧ ∃ code, sampleGrid.HexToCode ⟨20, 26⟩ = Except.ok code
          ∧ sampleGrid.HexFromCode code = ⟨20, 26⟩ :=
  ⟨by unfold Grid.inCoderRange; decide, rfl,
    HexFromCode_HexToCode sampleGrid ⟨20, 26⟩ (by unfold Grid.inCoderRange; decide)⟩

/-- C8 (amended). For every hex `c` and every `layers ≥ 0` such that
`3·layers·(layers+1)` and the coordinates `c.q ± layers`, `c.r ± layers` fit in
`int64`, `HexNeighbors(c, layers)` lists its hexes in scan order: it is the
sequence of `c` plus the offsets `(dq, dr)` of the enumeration with `dq`
ascending from `-layers` to `layers` and, within each `dq`, `dr` ascending from
`max(-layers, -dq-layers)` to `min(layers, -dq+layers)`, `(0,0)` skipped; the
result is strictly increasing in the lexicographic order on (q, r).  For two
layers around the hex (22, 26) the codes are those of the test. -/
theorem HexNeighbors_scan_order :
    (∀ (c : Hex) (L : Int), 0 ≤ L → 3 * (L * (L + 1)) ≤ 9223372036854775807 →
        -9223372036854775808 ≤ c.q - L → c.q + L ≤ 9223372036854775807 →
        -9223372036854775808 ≤ c.r - L → c.r + L ≤ 9223372036854775807 →
        ∃ l, HexNeighbors c L = Except.ok l
          ∧ l = (scanOffsets L).map (fun d => MakeHex (d.1 + c.q) (d.2 + c.r))
          ∧ l.Pairwise Hex.lexLt)
      ∧ ∃ l, HexNeighbors ⟨22, 26⟩ 2 = Except.ok l
          ∧ l.map (fun h => Make64_2_32.SPack h.Q h.R)
            = [Except.ok 920, Except.ok 922, Except.ok 944, Except.ok 915, Except.ok 921,
                Except.ok 923, Except.ok 945, Except.ok 916, Except.ok 918, Except.ok 926,
                Except.ok 948, Except.ok 917, Except.ok 919, Except.ok 925, Except.ok 927,
                Except.ok 960, Except.ok 962, Except.ok 968] := by
  constructor
  · intro c L h0 hT hq1 hq2 hr1 hr2
    refine ⟨_, HexNeighbors_eq c L h0 hT, ?_, pairwise_neighbors c L h0 hq1 hq2 hr1 hr2⟩
    exact List.map_congr_left (offsetHex_exact c L h0 hq1 hq2 hr1 hr2)
  · exact ⟨_, HexNeighbors_eq ⟨22, 26⟩ 2 (by decide) (by decide), rfl⟩

/-- Witness of `HexNeighbors_scan_order` at the hex (22, 26) with two layers. -/
theorem HexNeighbors_scan_order_witness :
    ∃ l, HexNeighbors ⟨22, 26⟩ 2 = Except.ok l
      ∧ l = (scanOffsets 2).map (fun d => MakeHex (d.1 + 22) (d.2 + 26))
      ∧ l.Pairwise Hex.lexLt :=
  HexNeighbors_scan_order.1 ⟨22, 26⟩ 2 (by decide) (by decide) (by decide) (by decide)
    (by decide) (by decide)

/-- C8, as stated, fails at the hex (0, 2^63 - 1) with one layer: the `r`
coordinate wraps around and the result is not increasing. -/
theorem HexNeighbors_scan_order_counterexample :
    ∃ l, HexNeighbors ⟨0, 9223372036854775807⟩ 1 = Except.ok l
      ∧ l = [⟨-1, 9223372036854775807⟩, ⟨-1, -9223372036854775808⟩,
          ⟨0, 9223372036854775806⟩, ⟨0, -9223372036854775808⟩,
          ⟨1, 9223372036854775806⟩, ⟨1, 9223372036854775807⟩]
      ∧ ¬ l.Pairwise Hex.lexLt := by
  refine ⟨_, rfl, rfl, ?_⟩
  decide

/-! ### Degenerate arguments -/

/-- C17. Evaluation of `HexNeighbors` on `layers ≤ 0`: for 0 and -1 the result
is empty, but for -2 the length `(layers+1)*layers*3` is 6 while the scan loop
is empty, and the result is six zero-value hexes, for every centre. -/
theorem HexNeighbors_nonpositive_layers (hex : Hex) :
    HexNeighbors hex 0 = Except.ok []
      ∧ HexNeighbors hex (-1) = Except.ok []
      ∧ HexNeighbors hex (-2) = Except.ok (List.replicate 6 (MakeHex 0 0)) := by
  refine ⟨?_, rfl, rfl⟩
  have h : HexNeighbors hex 0 = Except.ok ((scanOffsets 0).map (offsetHex hex)) :=
    HexNeighbors_eq hex 0 (by decide) (by decide)
  rw [h]
  rfl

section Degenerate
variable {F : Type} [LinearOrderedField F] [FloorRing F]

/-- C19. Evaluation of `MakeRegion` on a polygon that consists of a single
vertex: the vertex is its own closing duplicate and is dropped, and indexing the
empty slice that is left is a run-time panic. -/
theorem MakeRegion_single_vertex (nextUp : F → F) (grid : Grid F) (v : Point F) :
    grid.MakeRegion nextUp [v] = Except.error Failure.indexOutOfRange := by
  unfold Grid.MakeRegion
  simp only [List.getLast?_singleton]
  unfold openRing
  rw [if_pos rfl]
  rfl

/-- On finite coordinates the float evaluation of cube rounding is `ToHex`. -/
theorem floatToHex_finite (a b : F) :
    floatToHex (Slope.finite a) (Slope.finite b) = (MakeFractionalHex a b).ToHex := by
  unfold floatToHex FractionalHex.ToHex
  simp only [Slope.add, Slope.neg, Slope.round, Slope.absDiff, Slope.gt, decide_eq_true_eq,
    FractionalHex.Q, FractionalHex.R, FractionalHex.S, MakeFractionalHex]

theorem slopeDiv_zero (a : F) : (slopeDiv a 0).isFinite = false := by
  unfold slopeDiv
  rw [if_pos rfl]
  split_ifs <;> rfl

theorem scale_nonfinite (c : F) (x : Slope F) (h : x.isFinite = false) :
    (x.scale c).isFinite = false := by
  cases x with
  | finite v => cases h
  | posInf => unfold Slope.scale; split_ifs <;> rfl
  | negInf => unfold Slope.scale; split_ifs <;> rfl
  | nan => rfl

theorem add_nonfinite_left (x y : Slope F) (h : x.isFinite = false) :
    (x.add y).isFinite = false := by
  cases x <;> cases y <;> first | rfl | cases h

theorem add_nonfinite_right (x y : Slope F) (h : y.isFinite = false) :
    (x.add y).isFinite = false := by
  cases x <;> cases y <;> first | rfl | cases h

/-- Cube rounding of two non-finite coordinates: the three conversions give the
smallest `int64`, no comparison of the errors holds, and no coordinate is
recomputed. -/
theorem floatToHex_nonfinite (q r : Slope F) (hq : q.isFinite = false)
    (hr : r.isFinite = false) : floatToHex q r = MakeHex minInt64 minInt64 := by
  cases q <;> cases r <;> first | rfl | exact Bool.noConfusion hq | exact Bool.noConfusion hr

theorem HexAt_eq_floatToHex (grid : Grid F) (point : Point F) :
    grid.HexAt point
      = floatToHex
          (((slopeDiv (point.X - grid.origin.X) grid.size.X).scale (grid.orientation.b 0)).add
            ((slopeDiv (point.Y - grid.origin.Y) grid.size.Y).scale (grid.orientation.b 1)))
          (((slopeDiv (point.X - grid.origin.X) grid.size.X).scale (grid.orientation.b 2)).add
            ((slopeDiv (point.Y - grid.origin.Y) grid.size.Y).scale (grid.orientation.b 3))) := by
  unfold Grid.HexAt
  simp only []
  split
  · rename_i hq hr
    rw [hq, hr, floatToHex_finite]
  · rfl

/-- C11 (amended). `MakeGrid` accepts a size with a zero component and stores
it unchanged; on such a grid `HexAt` raises no error: the division by the zero
component gives an infinity or a NaN, both fractional coordinates are
non-finite, and the hex returned has the conversion of a non-finite float in
both coordinates, whatever the orientation, the origin and the point. -/
theorem HexAt_zero_size (orientation : Orientation F) (origin size : Point F)
    (mort : Morton64) (point : Point F) (hzero : size.x = 0 ∨ size.y = 0) :
    (MakeGrid orientation origin size mort).size = size
      ∧ (MakeGrid orientation origin size mort).HexAt point = MakeHex minInt64 minInt64 := by
  refine ⟨rfl, ?_⟩
  rw [HexAt_eq_floatToHex]
  apply floatToHex_nonfinite
  · rcases hzero with h | h
    · apply add_nonfinite_left
      apply scale_nonfinite
      show (slopeDiv _ size.x).isFinite = false
      rw [h]
      exact slopeDiv_zero _
    · apply add_nonfinite_right
      apply scale_nonfinite
      show (slopeDiv _ size.y).isFinite = false
      rw [h]
      exact slopeDiv_zero _
  · rcases hzero with h | h
    · apply add_nonfinite_left
      apply scale_nonfinite
      show (slopeDiv _ size.x).isFinite = false
      rw [h]
      exact slopeDiv_zero _
    · apply add_nonfinite_right
      apply scale_nonfinite
      show (slopeDiv _ size.y).isFinite = false
      rw [h]
      exact slopeDiv_zero _

end Degenerate

/-- Witness of `HexAt_zero_size` on the sample orientation with size (0, 10). -/
theorem HexAt_zero_size_witness :
    (MakeGrid sampleOrientation (MakePoint 10 20) (MakePoint 0 10) Make64_2_32).size
        = MakePoint 0 10
      ∧ (MakeGrid sampleOrientation (MakePoint 10 20) (MakePoint 0 10) Make64_2_32).HexAt
          (MakePoint 13 666) = MakeHex minInt64 minInt64 :=
  HexAt_zero_size sampleOrientation (MakePoint 10 20) (MakePoint 0 10) Make64_2_32
    (MakePoint 13 666) (Or.inl rfl)

/-- C11, as stated, fails on the sample orientation with size (20, 0): the grid
is constructed with that size, and `HexAt` at (13, 666) returns the hex
(-2⁶³, -2⁶³), computed from the division 646 / 0, not an error. -/
theorem HexAt_zero_size_counterexample :
    (MakeGrid sampleOrientation (MakePoint 10 20) (MakePoint 20 0) Make64_2_32).size.y = 0
      ∧ (slopeDiv ((MakePoint (13 : ℚ) 666).Y - (MakePoint (10 : ℚ) 20).Y) 0).isFinite = false
      ∧ (MakeGrid sampleOrientation (MakePoint 10 20) (MakePoint 20 0) Make64_2_32).HexAt
          (MakePoint 13 666) = MakeHex (-9223372036854775808) (-9223372036854775808) := by
  decide!

/-- C15. Evaluation of `pointInGeometry` on the triangle (60, 40), (40, 60),
(0, 0) and the query point (60, 45): the vertices are not collinear, the point
lies on none of the three edge lines, its `y` differs from the `y` of every
vertex and it is outside the triangle, yet the result is `true`. -/
theorem pointInGeometry_triangle_outside :
    cross (MakePoint 60 40) (MakePoint 40 60) (MakePoint (0 : ℚ) 0) ≠ 0
      ∧ cross (MakePoint 60 40) (MakePoint 40 60) (MakePoint (60 : ℚ) 45) ≠ 0
      ∧ cross (MakePoint 40 60) (MakePoint 0 0) (MakePoint (60 : ℚ) 45) ≠ 0
      ∧ cross (MakePoint 0 0) (MakePoint 60 40) (MakePoint (60 : ℚ) 45) ≠ 0
      ∧ ¬ insideTriangle (MakePoint 60 40) (MakePoint 40 60) (MakePoint 0 0)
          (MakePoint (60 : ℚ) 45)
      ∧ isOkTrue (pointInGeometry ratNextUp
          [MakePoint 60 40, MakePoint 40 60, MakePoint 0 0] (MakePoint 60 45)) = true := by
  decide!

/-! ### The point-in-polygon test -/

section Raycast
variable {F : Type} [LinearOrderedField F] [FloorRing F]

/-- With a strictly increasing `nextUp`, three tests of the loop condition of
`intersectsWithRaycast` are enough for the loop to exit. -/
theorem bumpY_some (nextUp : F → F) (hnext : ∀ x, x < nextUp x) (a b y : F) :
    ∃ y', bumpY nextUp a b 3 y = some y' := by
  have h1 := hnext y
  have h2 := hnext (nextUp y)
  unfold bumpY
  split_ifs with c1
  · unfold bumpY
    split_ifs with c2
    · unfold bumpY
      split_ifs with c3
      · exfalso
        rcases c1 with c1 | c1 <;> rcases c2 with c2 | c2 <;> rcases c3 with c3 | c3 <;>
          subst_vars <;> linarith
      · exact ⟨_, rfl⟩
    · exact ⟨_, rfl⟩
  · exact ⟨_, rfl⟩

/-- With a strictly increasing `nextUp`, `intersectsWithRaycast` returns. -/
theorem intersectsWithRaycast_ok (nextUp : F → F) (hnext : ∀ x, x < nextUp x)
    (point start stop : Point F) :
    ∃ b, intersectsWithRaycast nextUp point start stop = Except.ok b := by
  unfold intersectsWithRaycast
  simp only []
  obtain ⟨y', hy⟩ := bumpY_some nextUp hnext
    (if start.Y > stop.Y then stop else start).Y (if start.Y > stop.Y then start else stop).Y
    point.Y
  rw [hy]
  simp only []
  split_ifs <;> exact ⟨_, rfl⟩

theorem crosses_of_ok (nextUp : F → F) (point start stop : Point F) (b : Bool)
    (h : intersectsWithRaycast nextUp point start stop = Except.ok b) :
    crosses nextUp point (start, stop) = b := by
  unfold crosses
  simp only [h]
  cases b <;> rfl

theorem raycastEdges_parity (nextUp : F → F) (hnext : ∀ x, x < nextUp x) (point : Point F)
    (rest : List (Point F)) (prev : Point F) (contains : Bool) :
    ∃ b, raycastEdges nextUp point prev rest contains = Except.ok b
      ∧ (b = true ↔
          Odd (contains.toNat + (List.zip (prev :: rest) rest).countP (crosses nextUp point))) := by
  induction rest generalizing prev contains with
  | nil =>
    refine ⟨contains, rfl, ?_⟩
    cases contains <;> simp
  | cons cur rest ih =>
    obtain ⟨t, ht⟩ := intersectsWithRaycast_ok nextUp hnext point prev cur
    have hc := crosses_of_ok nextUp point prev cur t ht
    rw [raycastEdges, ht]
    rw [List.zip_cons_cons, List.countP_cons, hc]
    cases t with
    | true =>
      simp only []
      obtain ⟨b, hb, hodd⟩ := ih cur (!contains)
      refine ⟨b, hb, ?_⟩
      rw [hodd]
      simp only [Nat.odd_iff, if_true]
      cases contains <;> simp <;> omega
    | false =>
      simp only []
      obtain ⟨b, hb, hodd⟩ := ih cur contains
      refine ⟨b, hb, ?_⟩
      rw [hodd]
      simp

/-- C16. For every non-empty ring and every query point, `pointInGeometry`
returns, and it returns true if and only if the number of ring edges (the
closing edge from the last vertex to the first and the consecutive pairs of
vertices) for which `intersectsWithRaycast` reports a crossing is odd.  The
function `nextUp`, the value of `math.Nextafter(y, +Inf)`, is strictly
increasing. -/
theorem pointInGeometry_iff_odd_crossings (nextUp : F → F) (hnext : ∀ x, x < nextUp x)
    (ring : List (Point F)) (hne : ring ≠ []) (point : Point F) :
    ∃ b, pointInGeometry nextUp ring point = Except.ok b
      ∧ (b = true ↔ Odd ((ringEdges ring).countP (crosses nextUp point))) := by
  cases ring with
  | nil => exact absurd rfl hne
  | cons first rest =>
    obtain ⟨last, hlast⟩ : ∃ last, (first :: rest).getLast? = some last := by
      cases h : (first :: rest).getLast? with
      | none => simp at h
      | some last => exact ⟨last, rfl⟩
    obtain ⟨t, ht⟩ := intersectsWithRaycast_ok nextUp hnext point last first
    have hc := crosses_of_ok nextUp point last first t ht
    obtain ⟨b, hb, hodd⟩ := raycastEdges_parity nextUp hnext point rest first t
    refine ⟨b, ?_, ?_⟩
    · unfold pointInGeometry
      rw [hlast]
      simp only [ht]
      exact hb
    · unfold ringEdges
      rw [hlast]
      simp only []
      rw [List.countP_cons, hc, hodd]
      cases t <;> simp [Nat.add_comm]

end Raycast

theorem ratNextUp_gt (x : ℚ) : x < ratNextUp x := by
  unfold ratNextUp
  linarith [show (0 : ℚ) < 1 / 4503599627370496 by norm_num]

/-- Witness of `pointInGeometry_iff_odd_crossings` on the sample polygon and
the query point (11, 21). -/
theorem pointInGeometry_iff_odd_crossings_witness :
    ∃ b, pointInGeometry ratNextUp samplePolygon (MakePoint 11 21) = Except.ok b
      ∧ (b = true ↔
          Odd ((ringEdges samplePolygon).countP (crosses ratNextUp (MakePoint 11 21)))) :=
  pointInGeometry_iff_odd_crossings ratNextUp ratNextUp_gt samplePolygon (by decide)
    (MakePoint 11 21)

/-! ### `HexAt` on the points of the tests -/

section TestLemmas
variable {F : Type} [LinearOrderedField F] [FloorRing F]

theorem approxSqrt3_bounds (s : F) (h : approxSqrt3 s) :
    (17320508 : F) / 10000000 ≤ s ∧ s ≤ 173205081 / 100000000 := by
  obtain ⟨h0, h1⟩ := h
  rw [abs_le] at h1
  obtain ⟨h1, h2⟩ := h1
  constructor
  · by_contra hc
    push_neg at hc
    nlinarith
  · by_contra hc
    push_neg at hc
    nlinarith

/-- `round` of a float strictly within one half of an `int64` is that integer. -/
theorem round_eq_of (x : F) (n : Int) (hn : inInt64 n) (h1 : (n : F) - 1 / 2 < x)
    (h2 : x < (n : F) + 1 / 2) : round x = n := by
  unfold round toInt64
  by_cases hneg : x < 0
  · have hx : ¬ (0 : F) ≤ x - 1 / 2 := by intro h; linarith
    simp only [hneg, hx, if_true, if_false]
    have : ⌈x - 1 / 2⌉ = n := by
      rw [Int.ceil_eq_iff]
      constructor <;> linarith
    rw [this, wrap64_of_inInt64 hn]
  · have hx : (0 : F) ≤ x + 1 / 2 := by linarith [not_lt.mp hneg]
    simp only [hneg, hx, if_true, if_false]
    have : ⌊x + 1 / 2⌋ = n := by
      rw [Int.floor_eq_iff]
      constructor <;> linarith
    rw [this, wrap64_of_inInt64 hn]

/-- When the three rounded coordinates add up to zero, cube rounding returns
the rounded `q` and `r`. -/
theorem ToHex_of_sum_zero (fhex : FractionalHex F) (A B C : Int) (hA : round fhex.Q = A)
    (hB : round fhex.R = B) (hC : round fhex.S = C) (hAin : inInt64 A) (hBin : inInt64 B)
    (hsum : A + B + C = 0) : fhex.ToHex = MakeHex A B := by
  unfold FractionalHex.ToHex MakeHex
  simp only [hA, hB, hC]
  have e1 : wrap64 (-(wrap64 (B + C))) = A := by
    rw [wrap64_neg_wrap64_add]
    have : -(B + C) = A := by omega
    rw [this, wrap64_of_inInt64 hAin]
  have e2 : wrap64 (-(wrap64 (A + C))) = B := by
    rw [wrap64_neg_wrap64_add]
    have : -(A + C) = B := by omega
    rw [this, wrap64_of_inInt64 hBin]
  split_ifs
  · rw [e1]
  · rw [e2]
  · rfl

/-- When the error of `q` is strictly the largest, cube rounding recomputes `q`. -/
theorem ToHex_of_q_largest (fhex : FractionalHex F) (A B C : Int) (hA : round fhex.Q = A)
    (hB : round fhex.R = B) (hC : round fhex.S = C)
    (h1 : |(B : F) - fhex.R| < |(A : F) - fhex.Q|)
    (h2 : |(C : F) - fhex.S| < |(A : F) - fhex.Q|) :
    fhex.ToHex = MakeHex (wrap64 (-(wrap64 (B + C)))) B := by
  unfold FractionalHex.ToHex MakeHex
  simp only [hA, hB, hC]
  rw [if_pos ⟨h1, h2⟩]

theorem HexAt_flatTestGrid (s : F) (sin cos : F → F) (pi : F) (mort : Morton64) (px py : F) :
    (flatTestGrid s sin cos pi mort).HexAt (MakePoint px py)
      = (MakeFractionalHex (2 / 3 * ((px - 10) / 20) + 0 * ((py - 20) / 10))
          (-1 / 3 * ((px - 10) / 20) + s / 3 * ((py - 20) / 10))).ToHex := by
  have hx : (flatTestGrid s sin cos pi mort).size.x ≠ 0 := by
    show (20 : F) ≠ 0
    norm_num
  have hy : (flatTestGrid s sin cos pi mort).size.y ≠ 0 := by
    show (10 : F) ≠ 0
    norm_num
  rw [HexAt_of_size_ne_zero _ _ hx hy]
  rfl

theorem HexAt_pointyTestGrid (s : F) (sin cos : F → F) (pi : F) (mort : Morton64) (px py : F) :
    (pointyTestGrid s sin cos pi mort).HexAt (MakePoint px py)
      = (MakeFractionalHex (s / 3 * ((px - 10) / 20) + -1 / 3 * ((py - 20) / 10))
          (0 * ((px - 10) / 20) + 2 / 3 * ((py - 20) / 10))).ToHex := by
  have hx : (pointyTestGrid s sin cos pi mort).size.x ≠ 0 := by
    show (20 : F) ≠ 0
    norm_num
  have hy : (pointyTestGrid s sin cos pi mort).size.y ≠ 0 := by
    show (10 : F) ≠ 0
    norm_num
  rw [HexAt_of_size_ne_zero _ _ hx hy]
  rfl

theorem HexAt_flat_13_666 (s : F) (sin cos : F → F) (pi : F) (mort : Morton64)
    (h : approxSqrt3 s) :
    (flatTestGrid s sin cos pi mort).HexAt (MakePoint 13 666) = MakeHex 0 37 := by
  obtain ⟨lo, hi⟩ := approxSqrt3_bounds s h
  rw [HexAt_flatTestGrid]
  apply ToHex_of_sum_zero _ 0 37 (-37)
  · apply round_eq_of _ _ (by decide) <;>
      (unfold FractionalHex.Q MakeFractionalHex; push_cast; norm_num)
  · apply round_eq_of _ _ (by decide) <;>
      (unfold FractionalHex.R MakeFractionalHex; push_cast; norm_num) <;> linarith
  · apply round_eq_of _ _ (by decide) <;>
      (unfold FractionalHex.S MakeFractionalHex; push_cast; norm_num) <;> linarith
  · decide
  · decide
  · decide

theorem HexAt_flat_666_13 (s : F) (sin cos : F → F) (pi : F) (mort : Morton64)
    (h : approxSqrt3 s) :
    (flatTestGrid s sin cos pi mort).HexAt (MakePoint 666 13) = MakeHex 22 (-11) := by
  obtain ⟨lo, hi⟩ := approxSqrt3_bounds s h
  rw [HexAt_flatTestGrid]
  apply ToHex_of_sum_zero _ 22 (-11) (-11)
  · apply round_eq_of _ _ (by decide) <;>
      (unfold FractionalHex.Q MakeFractionalHex; push_cast; norm_num)
  · apply round_eq_of _ _ (by decide) <;>
      (unfold FractionalHex.R MakeFractionalHex; push_cast; norm_num) <;> linarith
  · apply round_eq_of _ _ (by decide) <;>
      (unfold FractionalHex.S MakeFractionalHex; push_cast; norm_num) <;> linarith
  · decide
  · decide
  · decide

theorem HexAt_flat_m13_m666 (s : F) (sin cos : F → F) (pi : F) (mort : Morton64)
    (h : approxSqrt3 s) :
    (flatTestGrid s sin cos pi mort).HexAt (MakePoint (-13) (-666)) = MakeHex (-1) (-39) := by
  obtain ⟨lo, hi⟩ := approxSqrt3_bounds s h
  rw [HexAt_flatTestGrid]
  apply ToHex_of_sum_zero _ (-1) (-39) 40
  · apply round_eq_of _ _ (by decide) <;>
      (unfold FractionalHex.Q MakeFractionalHex; push_cast; norm_num)
  · apply round_eq_of _ _ (by decide) <;>
      (unfold FractionalHex.R MakeFractionalHex; push_cast; norm_num) <;> linarith
  · apply round_eq_of _ _ (by decide) <;>
      (unfold FractionalHex.S MakeFractionalHex; push_cast; norm_num) <;> linarith
  · decide
  · decide
  · decide

theorem HexAt_flat_666_666 (s : F) (sin cos : F → F) (pi : F) (mort : Morton64)
    (h : approxSqrt3 s) :
    (flatTestGrid s sin cos pi mort).HexAt (MakePoint 666 666) = MakeHex 22 26 := by
  obtain ⟨lo, hi⟩ := approxSqrt3_bounds s h
  rw [HexAt_flatTestGrid]
  apply ToHex_of_sum_zero _ 22 26 (-48)
  · apply round_eq_of _ _ (by decide) <;>
      (unfold FractionalHex.Q MakeFractionalHex; push_cast; norm_num)
  · apply round_eq_of _ _ (by decide) <;>
      (unfold FractionalHex.R MakeFractionalHex; push_cast; norm_num) <;> linarith
  · apply round_eq_of _ _ (by decide) <;>
      (unfold FractionalHex.S MakeFractionalHex; push_cast; norm_num) <;> linarith
  · decide
  · decide
  · decide

theorem HexAt_pointy_13_666 (s : F) (sin cos : F → F) (pi : F) (mort : Morton64)
    (h : approxSqrt3 s) :
    (pointyTestGrid s sin cos pi mort).HexAt (MakePoint 13 666) = MakeHex (-21) 43 := by
  obtain ⟨lo, hi⟩ := approxSqrt3_bounds s h
  rw [HexAt_pointyTestGrid]
  apply ToHex_of_sum_zero _ (-21) 43 (-22)
  · apply round_eq_of _ _ (by decide) <;>
      (unfold FractionalHex.Q MakeFractionalHex; push_cast; norm_num) <;> linarith
  · apply round_eq_of _ _ (by decide) <;>
      (unfold FractionalHex.R MakeFractionalHex; push_cast; norm_num)
  · apply round_eq_of _ _ (by decide) <;>
      (unfold FractionalHex.S MakeFractionalHex; push_cast; norm_num) <;> linarith
  · decide
  · decide
  · decide

theorem HexAt_pointy_666_13 (s : F) (sin cos : F → F) (pi : F) (mort : Morton64)
    (h : approxSqrt3 s) :
    (pointyTestGrid s sin cos pi mort).HexAt (MakePoint 666 13) = MakeHex 19 0 := by
  obtain ⟨lo, hi⟩ := approxSqrt3_bounds s h
  rw [HexAt_pointyTestGrid]
  apply ToHex_of_sum_zero _ 19 0 (-19)
  · apply round_eq_of _ _ (by decide) <;>
      (unfold FractionalHex.Q MakeFractionalHex; push_cast; norm_num) <;> linarith
  · apply round_eq_of _ _ (by decide) <;>
      (unfold FractionalHex.R MakeFractionalHex; push_cast; norm_num)
  · apply round_eq_of _ _ (by decide) <;>
      (unfold FractionalHex.S MakeFractionalHex; push_cast; norm_num) <;> linarith
  · decide
  · decide
  · decide

theorem HexAt_pointy_m13_m666 (s : F) (sin cos : F → F) (pi : F) (mort : Morton64)
    (h : approxSqrt3 s) :
    (pointyTestGrid s sin cos pi mort).HexAt (MakePoint (-13) (-666)) = MakeHex 22 (-46) := by
  obtain ⟨lo, hi⟩ := approxSqrt3_bounds s h
  rw [HexAt_pointyTestGrid]
  apply ToHex_of_sum_zero _ 22 (-46) 24
  · apply round_eq_of _ _ (by decide) <;>
      (unfold FractionalHex.Q MakeFractionalHex; push_cast; norm_num) <;> linarith
  · apply round_eq_of _ _ (by decide) <;>
      (unfold FractionalHex.R MakeFractionalHex; push_cast; norm_num)
  · apply round_eq_of _ _ (by decide) <;>
      (unfold FractionalHex.S MakeFractionalHex; push_cast; norm_num) <;> linarith
  · decide
  · decide
  · decide

theorem HexAt_flat_m666_m13 (s : F) (sin cos : F → F) (pi : F) (mort : Morton64)
    (h : approxSqrt3 s) :
    (flatTestGrid s sin cos pi mort).HexAt (MakePoint (-666) (-13)) = MakeHex (-22) 9 := by
  obtain ⟨lo, hi⟩ := approxSqrt3_bounds s h
  rw [HexAt_flatTestGrid]
  have e : MakeHex (-22) 9 = MakeHex (wrap64 (-(wrap64 (9 + 13)))) 9 := by decide
  rw [e]
  apply ToHex_of_q_largest _ (-23) 9 13
  · apply round_eq_of _ _ (by decide) <;>
      (unfold FractionalHex.Q MakeFractionalHex; push_cast; norm_num)
  · apply round_eq_of _ _ (by decide) <;>
      (unfold FractionalHex.R MakeFractionalHex; push_cast; norm_num) <;> linarith
  · apply round_eq_of _ _ (by decide) <;>
      (unfold FractionalHex.S MakeFractionalHex; push_cast; norm_num) <;> linarith
  · unfold FractionalHex.Q FractionalHex.R MakeFractionalHex
    push_cast
    rw [abs_of_neg (by norm_num; linarith), abs_of_neg (by norm_num)]
    norm_num
    linarith
  · unfold FractionalHex.Q FractionalHex.S MakeFractionalHex
    push_cast
    rw [abs_of_neg (by norm_num; linarith), abs_of_neg (by norm_num)]
    norm_num
    linarith

theorem HexAt_pointy_m666_m13 (s : F) (sin cos : F → F) (pi : F) (mort : Morton64)
    (h : approxSqrt3 s) :
    (pointyTestGrid s sin cos pi mort).HexAt (MakePoint (-666) (-13)) = MakeHex (-19) (-2) := by
  obtain ⟨lo, hi⟩ := approxSqrt3_bounds s h
  rw [HexAt_pointyTestGrid]
  have e : MakeHex (-19) (-2) = MakeHex (wrap64 (-(wrap64 (-2 + 21)))) (-2) := by decide
  rw [e]
  apply ToHex_of_q_largest _ (-18) (-2) 21
  · apply round_eq_of _ _ (by decide) <;>
      (unfold FractionalHex.Q MakeFractionalHex; push_cast; norm_num) <;> linarith
  · apply round_eq_of _ _ (by decide) <;>
      (unfold FractionalHex.R MakeFractionalHex; push_cast; norm_num)
  · apply round_eq_of _ _ (by decide) <;>
      (unfold FractionalHex.S MakeFractionalHex; push_cast; norm_num) <;> linarith
  · unfold FractionalHex.Q FractionalHex.R MakeFractionalHex
    push_cast
    rw [abs_of_pos (by norm_num), abs_of_pos (by norm_num; linarith)]
    norm_num
    linarith
  · unfold FractionalHex.Q FractionalHex.S MakeFractionalHex
    push_cast
    rw [abs_of_pos (by norm_num; linarith), abs_of_pos (by norm_num; linarith)]
    norm_num
    linarith

/-- C12. On the grid with origin (10, 20) and size (20, 10), for every value of
`math.Sqrt(3.0)` that is the square root of 3 up to float accuracy: with the
flat orientation `HexAt` maps (13, 666), (666, 13), (-13, -666), (-666, -13) to
the hexes (0, 37), (22, -11), (-1, -39), (-22, 9), and with the pointy
orientation to (-21, 43), (19, 0), (22, -46), (-19, -2). -/
theorem HexAt_test_points (s : F) (sin cos : F → F) (pi : F) (mort : Morton64)
    (h : approxSqrt3 s) :
    (flatTestGrid s sin cos pi mort).HexAt (MakePoint 13 666) = MakeHex 0 37
      ∧ (flatTestGrid s sin cos pi mort).HexAt (MakePoint 666 13) = MakeHex 22 (-11)
      ∧ (flatTestGrid s sin cos pi mort).HexAt (MakePoint (-13) (-666)) = MakeHex (-1) (-39)
      ∧ (flatTestGrid s sin cos pi mort).HexAt (MakePoint (-666) (-13)) = MakeHex (-22) 9
      ∧ (pointyTestGrid s sin cos pi mort).HexAt (MakePoint 13 666) = MakeHex (-21) 43
      ∧ (pointyTestGrid s sin cos pi mort).HexAt (MakePoint 666 13) = MakeHex 19 0
      ∧ (pointyTestGrid s sin cos pi mort).HexAt (MakePoint (-13) (-666)) = MakeHex 22 (-46)
      ∧ (pointyTestGrid s sin cos pi mort).HexAt (MakePoint (-666) (-13)) = MakeHex (-19) (-2) :=
  ⟨HexAt_flat_13_666 s sin cos pi mort h, HexAt_flat_666_13 s sin cos pi mort h,
    HexAt_flat_m13_m666 s sin cos pi mort h, HexAt_flat_m666_m13 s sin cos pi mort h,
    HexAt_pointy_13_666 s sin cos pi mort h, HexAt_pointy_666_13 s sin cos pi mort h,
    HexAt_pointy_m13_m666 s sin cos pi mort h, HexAt_pointy_m666_m13 s sin cos pi mort h⟩

end TestLemmas

/-! ### Pixel/hex round trip -/

section RoundTrip
variable {F : Type} [LinearOrderedField F] [FloorRing F]

/-- Cube rounding leaves a fractional hex with integer coordinates unchanged. -/
theorem ToHex_of_int (h : Hex) (hv : h.valid) :
    (MakeFractionalHex ((h.q : Int) : F) ((h.r : Int) : F)).ToHex = h := by
  have hq : round ((h.q : Int) : F) = h.q :=
    round_eq_of _ _ hv.1 (by linarith) (by linarith)
  have hr : round ((h.r : Int) : F) = h.r :=
    round_eq_of _ _ hv.2 (by linarith) (by linarith)
  unfold FractionalHex.ToHex
  simp only [FractionalHex.Q, FractionalHex.R, MakeFractionalHex, hq, hr, sub_self, abs_zero]
  have h1 : ¬ ((0 : F) > 0 ∧ (0 : F) > |((round (FractionalHex.S
      ({ q := (h.q : F), r := (h.r : F) } : FractionalHex F)) : Int) : F)
        - FractionalHex.S ({ q := (h.q : F), r := (h.r : F) } : FractionalHex F)|) := by
    intro hc; exact lt_irrefl _ hc.1
  have h2 : ¬ ((0 : F) > |((round (FractionalHex.S
      ({ q := (h.q : F), r := (h.r : F) } : FractionalHex F)) : Int) : F)
        - FractionalHex.S ({ q := (h.q : F), r := (h.r : F) } : FractionalHex F)|) := by
    intro hc; exact absurd hc (not_lt.mpr (abs_nonneg _))
  rw [if_neg h1, if_neg h2]

/-- On a grid with non-zero size whose backward matrix is the inverse of its
forward matrix, the centre of a hex maps back to the hex. -/
theorem HexAt_HexCenter_of_inverse (grid : Grid F) (hx : grid.size.x ≠ 0)
    (hy : grid.size.y ≠ 0)
    (i1 : grid.orientation.b 0 * grid.orientation.f 0
        + grid.orientation.b 1 * grid.orientation.f 2 = 1)
    (i2 : grid.orientation.b 0 * grid.orientation.f 1
        + grid.orientation.b 1 * grid.orientation.f 3 = 0)
    (i3 : grid.orientation.b 2 * grid.orientation.f 0
        + grid.orientation.b 3 * grid.orientation.f 2 = 0)
    (i4 : grid.orientation.b 2 * grid.orientation.f 1
        + grid.orientation.b 3 * grid.orientation.f 3 = 1)
    (h : Hex) (hv : h.valid) : grid.HexAt (grid.HexCenter h) = h := by
  have e := ToHex_of_int (F := F) h hv
  rw [HexAt_of_size_ne_zero _ _ hx hy]
  unfold Grid.HexCenter
  simp only [Point.X, Point.Y, MakePoint, Hex.Q, Hex.R]
  have ex : ((grid.orientation.f 0 * (h.q : F) + grid.orientation.f 1 * (h.r : F)) * grid.size.x
      + grid.origin.x - grid.origin.x) / grid.size.x
      = grid.orientation.f 0 * (h.q : F) + grid.orientation.f 1 * (h.r : F) := by
    field_simp
  have ey : ((grid.orientation.f 2 * (h.q : F) + grid.orientation.f 3 * (h.r : F)) * grid.size.y
      + grid.origin.y - grid.origin.y) / grid.size.y
      = grid.orientation.f 2 * (h.q : F) + grid.orientation.f 3 * (h.r : F) := by
    field_simp
  rw [ex, ey]
  have eq : grid.orientation.b 0
        * (grid.orientation.f 0 * (h.q : F) + grid.orientation.f 1 * (h.r : F))
      + grid.orientation.b 1
        * (grid.orientation.f 2 * (h.q : F) + grid.orientation.f 3 * (h.r : F)) = (h.q : F) := by
    linear_combination (h.q : F) * i1 + (h.r : F) * i2
  have er : grid.orientation.b 2
        * (grid.orientation.f 0 * (h.q : F) + grid.orientation.f 1 * (h.r : F))
      + grid.orientation.b 3
        * (grid.orientation.f 2 * (h.q : F) + grid.orientation.f 3 * (h.r : F)) = (h.r : F) := by
    linear_combination (h.q : F) * i3 + (h.r : F) * i4
  rw [eq, er]
  exact e

/-- C18. Pixel/hex round trip, in exact arithmetic: for the pointy and the
flat orientation (with `sqrt3` the square root of 3), every origin, every size
with both components non-zero and every `int64` hex `h`, the centre of `h` maps
back to `h`: `HexAt(HexCenter(h)) = h`. -/
theorem HexAt_HexCenter (s : F) (hs : s * s = 3) (sin cos : F → F) (pi : F)
    (origin size : Point F) (hx : size.x ≠ 0) (hy : size.y ≠ 0) (mort : Morton64)
    (h : Hex) (hv : h.valid) :
    (MakeGrid (PointyOrientation s sin cos pi) origin size mort).HexAt
        ((MakeGrid (PointyOrientation s sin cos pi) origin size mort).HexCenter h) = h
      ∧ (MakeGrid (FlatOrientation s sin cos pi) origin size mort).HexAt
        ((MakeGrid (FlatOrientation s sin cos pi) origin size mort).HexCenter h) = h := by
  constructor
  · apply HexAt_HexCenter_of_inverse _ hx hy _ _ _ _ h hv
    · show s / 3 * s + -1 / 3 * 0 = 1
      linear_combination hs / 3
    · show s / 3 * (s / 2) + -1 / 3 * (3 / 2) = 0
      linear_combination hs / 6
    · show (0 : F) * s + 2 / 3 * 0 = 0
      ring
    · show (0 : F) * (s / 2) + 2 / 3 * (3 / 2) = 1
      ring
  · apply HexAt_HexCenter_of_inverse _ hx hy _ _ _ _ h hv
    · show (2 / 3 : F) * (3 / 2) + 0 * (s / 2) = 1
      ring
    · show (2 / 3 : F) * 0 + 0 * s = 0
      ring
    · show (-1 / 3 : F) * (3 / 2) + s / 3 * (s / 2) = 0
      linear_combination hs / 6
    · show (-1 / 3 : F) * 0 + s / 3 * s = 1
      linear_combination hs / 3

end RoundTrip

/-- Witness of `HexAt_HexCenter` over the reals, with the real square root of
3, origin (10, 20), size (20, 10) and the hex (22, 26). -/
theorem HexAt_HexCenter_witness :
    (MakeGrid (PointyOrientation (Real.sqrt 3) Real.sin Real.cos Real.pi) (MakePoint 10 20)
        (MakePoint 20 10) Make64_2_32).HexAt
        ((MakeGrid (PointyOrientation (Real.sqrt 3) Real.sin Real.cos Real.pi) (MakePoint 10 20)
          (MakePoint 20 10) Make64_2_32).HexCenter ⟨22, 26⟩) = ⟨22, 26⟩
      ∧ (MakeGrid (FlatOrientation (Real.sqrt 3) Real.sin Real.cos Real.pi) (MakePoint 10 20)
        (MakePoint 20 10) Make64_2_32).HexAt
        ((MakeGrid (FlatOrientation (Real.sqrt 3) Real.sin Real.cos Real.pi) (MakePoint 10 20)
          (MakePoint 20 10) Make64_2_32).HexCenter ⟨22, 26⟩) = ⟨22, 26⟩ :=
  HexAt_HexCenter (Real.sqrt 3) (Real.mul_self_sqrt (by norm_num)) Real.sin Real.cos Real.pi
    (MakePoint 10 20) (MakePoint 20 10) (by unfold MakePoint; norm_num)
    (by unfold MakePoint; norm_num) Make64_2_32 ⟨22, 26⟩ (by decide)

theorem approxSqrt3_real : approxSqrt3 (Real.sqrt 3) := by
  unfold approxSqrt3
  refine ⟨Real.sqrt_nonneg 3, ?_⟩
  rw [Real.mul_self_sqrt (by norm_num)]
  norm_num

/-- Witness of `HexAt_test_points` over the reals, with the real square root of
3. -/
theorem HexAt_test_points_witness :
    (flatTestGrid (Real.sqrt 3) Real.sin Real.cos Real.pi Make64_2_32).HexAt
        (MakePoint 13 666) = MakeHex 0 37
      ∧ (flatTestGrid (Real.sqrt 3) Real.sin Real.cos Real.pi Make64_2_32).HexAt
        (MakePoint 666 13) = MakeHex 22 (-11)
      ∧ (flatTestGrid (Real.sqrt 3) Real.sin Real.cos Real.pi Make64_2_32).HexAt
        (MakePoint (-13) (-666)) = MakeHex (-1) (-39)
      ∧ (flatTestGrid (Real.sqrt 3) Real.sin Real.cos Real.pi Make64_2_32).HexAt
        (MakePoint (-666) (-13)) = MakeHex (-22) 9
      ∧ (pointyTestGrid (Real.sqrt 3) Real.sin Real.cos Real.pi Make64_2_32).HexAt
        (MakePoint 13 666) = MakeHex (-21) 43
      ∧ (pointyTestGrid (Real.sqrt 3) Real.sin Real.cos Real.pi Make64_2_32).HexAt
        (MakePoint 666 13) = MakeHex 19 0
      ∧ (pointyTestGrid (Real.sqrt 3) Real.sin Real.cos Real.pi Make64_2_32).HexAt
        (MakePoint (-13) (-666)) = MakeHex 22 (-46)
      ∧ (pointyTestGrid (Real.sqrt 3) Real.sin Real.cos Real.pi Make64_2_32).HexAt
        (MakePoint (-666) (-13)) = MakeHex (-19) (-2) :=
  HexAt_test_points (Real.sqrt 3) Real.sin Real.cos Real.pi Make64_2_32 approxSqrt3_real

/-! ### Centre and corners of the test hex -/

section Corners
variable {F : Type} [LinearOrderedField F] [FloorRing F]

theorem HexCenter_flatTestGrid (s : F) (sin cos : F → F) (pi : F) (mort : Morton64) :
    (flatTestGrid s sin cos pi mort).HexCenter (MakeHex 22 26)
      = MakePoint 670 (370 * s + 20) := by
  unfold Grid.HexCenter flatTestGrid MakeGrid FlatOrientation prehashAngles MakePoint MakeHex
    Hex.Q Hex.R Point.X Point.Y
  simp only [Matrix.cons_val_zero, Matrix.cons_val_one, Matrix.head_cons, Matrix.cons_val_two,
    Matrix.tail_cons, Matrix.cons_val_three, Point.mk.injEq]
  push_cast
  constructor <;> ring

/-- A corner whose table entries are within 10⁻⁸ of `ce` and `de` is within
10⁻⁵ of the expected point when the exact corner is within 9·10⁻⁶ of it. -/
theorem corner_close (s c d ce de ex ey : F) (t1 : |c - ce| ≤ 1 / 100000000)
    (t2 : |d - de| ≤ 1 / 100000000) (hx : 20 * ce + 670 = ex)
    (hy1 : -(9 / 1000000) ≤ 10 * de + (370 * s + 20) - ey)
    (hy2 : 10 * de + (370 * s + 20) - ey ≤ 9 / 1000000) :
    |20 * c + 670 - ex| ≤ 1 / 100000 ∧ |10 * d + (370 * s + 20) - ey| ≤ 1 / 100000 := by
  rw [abs_le] at t1 t2
  obtain ⟨a1, a2⟩ := t1
  obtain ⟨b1, b2⟩ := t2
  constructor
  · rw [abs_le]
    constructor <;> linarith
  · rw [abs_le]
    constructor <;> linarith

/-- C14. On the flat grid with origin (10, 20) and size (20, 10), for every
value of `math.Sqrt(3.0)` that is the square root of 3 up to float accuracy and
tables that hold the sines and cosines of the corner angles up to 10⁻⁸: the hex
of (666, 666) is (22, 26), its centre is within 10⁻⁵ per coordinate of
(670, 660.85880), and its six corners are, in order, within 10⁻⁵ per coordinate
of (690, 660.85880), (680, 669.51905), (660, 669.51905), (650, 660.85880),
(660, 652.19854), (680, 652.19854). -/
theorem HexCenter_HexCorners_test (s : F) (sin cos : F → F) (pi : F) (mort : Morton64)
    (h : approxSqrt3 s) (ht : approxFlatTables s (FlatOrientation s sin cos pi)) :
    (flatTestGrid s sin cos pi mort).HexAt (MakePoint 666 666) = MakeHex 22 26
      ∧ |((flatTestGrid s sin cos pi mort).HexCenter
            ((flatTestGrid s sin cos pi mort).HexAt (MakePoint 666 666))).x - 670|
          ≤ 1 / 100000
      ∧ |((flatTestGrid s sin cos pi mort).HexCenter
            ((flatTestGrid s sin cos pi mort).HexAt (MakePoint 666 666))).y
            - 66085880 / 100000| ≤ 1 / 100000
      ∧ ∀ i : Fin 6,
          |((flatTestGrid s sin cos pi mort).HexCorners
              ((flatTestGrid s sin cos pi mort).HexAt (MakePoint 666 666)) i).x
              - ![690, 680, 660, 650, 660, 680] i| ≤ 1 / 100000
            ∧ |((flatTestGrid s sin cos pi mort).HexCorners
              ((flatTestGrid s sin cos pi mort).HexAt (MakePoint 666 666)) i).y
              - ![66085880 / 100000, 66951905 / 100000, 66951905 / 100000, 66085880 / 100000,
                  65219854 / 100000, 65219854 / 100000] i| ≤ 1 / 100000 := by
  obtain ⟨lo, hi⟩ := approxSqrt3_bounds s h
  have hhex := HexAt_flat_666_666 s sin cos pi mort h
  have hc := HexCenter_flatTestGrid s sin cos pi mort
  rw [hhex]
  refine ⟨rfl, ?_, ?_, ?_⟩
  · rw [hc]
    simp [MakePoint]
  · rw [hc]
    simp only [MakePoint]
    rw [abs_le]
    constructor <;> linarith
  · intro i
    have hcor : ∀ k : Fin 6, (flatTestGrid s sin cos pi mort).HexCorners (MakeHex 22 26) k
        = MakePoint (20 * (FlatOrientation s sin cos pi).cosinuses k + 670)
            (10 * (FlatOrientation s sin cos pi).sinuses k + (370 * s + 20)) := by
      intro k
      unfold Grid.HexCorners
      simp only [hc]
      rfl
    rw [hcor]
    simp only [MakePoint]
    fin_cases i
    · exact corner_close s _ _ 1 0 690 (66085880 / 100000) (ht 0).1 (ht 0).2 (by norm_num)
        (by linarith) (by linarith)
    · exact corner_close s _ _ (1 / 2) (s / 2) 680 (66951905 / 100000) (ht 1).1 (ht 1).2
        (by norm_num) (by linarith) (by linarith)
    · exact corner_close s _ _ (-1 / 2) (s / 2) 660 (66951905 / 100000) (ht 2).1 (ht 2).2
        (by norm_num) (by linarith) (by linarith)
    · exact corner_close s _ _ (-1) 0 650 (66085880 / 100000) (ht 3).1 (ht 3).2 (by norm_num)
        (by linarith) (by linarith)
    · exact corner_close s _ _ (-1 / 2) (-s / 2) 660 (65219854 / 100000) (ht 4).1 (ht 4).2
        (by norm_num) (by linarith) (by linarith)
    · exact corner_close s _ _ (1 / 2) (-s / 2) 680 (65219854 / 100000) (ht 5).1 (ht 5).2
        (by norm_num) (by linarith) (by linarith)

end Corners

theorem flat_angles_real (k : Nat) (a : ℝ) (c d : ℝ)
    (ha : 2 * Real.pi * ((k : ℝ) + 0) / 6 = a) (hc : Real.cos a = c) (hd : Real.sin a = d) :
    |Real.cos (2 * Real.pi * ((k : ℝ) + 0) / 6) - c| ≤ 1 / 100000000
      ∧ |Real.sin (2 * Real.pi * ((k : ℝ) + 0) / 6) - d| ≤ 1 / 100000000 := by
  rw [ha, hc, hd]
  norm_num

/-- The real sines and cosines fill the tables of the flat orientation with
the values of the six corner angles. -/
theorem approxFlatTables_real :
    approxFlatTables (Real.sqrt 3)
      (FlatOrientation (Real.sqrt 3) Real.sin Real.cos Real.pi) := by
  intro i
  fin_cases i
  · exact flat_angles_real 0 0 1 0 (by push_cast; ring) Real.cos_zero Real.sin_zero
  · exact flat_angles_real 1 (Real.pi / 3) (1 / 2) (Real.sqrt 3 / 2) (by push_cast; ring)
      Real.cos_pi_div_three Real.sin_pi_div_three
  · exact flat_angles_real 2 (Real.pi - Real.pi / 3) (-1 / 2) (Real.sqrt 3 / 2)
      (by push_cast; ring) (by rw [Real.cos_pi_sub, Real.cos_pi_div_three]; ring)
      (by rw [Real.sin_pi_sub, Real.sin_pi_div_three])
  · exact flat_angles_real 3 Real.pi (-1) 0 (by push_cast; ring) Real.cos_pi Real.sin_pi
  · exact flat_angles_real 4 (Real.pi / 3 + Real.pi) (-1 / 2) (-Real.sqrt 3 / 2)
      (by push_cast; ring) (by rw [Real.cos_add_pi, Real.cos_pi_div_three]; ring)
      (by rw [Real.sin_add_pi, Real.sin_pi_div_three]; ring)
  · exact flat_angles_real 5 (2 * Real.pi - Real.pi / 3) (1 / 2) (-Real.sqrt 3 / 2)
      (by push_cast; ring) (by rw [Real.cos_two_pi_sub, Real.cos_pi_div_three])
      (by rw [Real.sin_two_pi_sub, Real.sin_pi_div_three]; ring)

/-- Witness of `HexCenter_HexCorners_test` over the reals, with the real square
root, sine and cosine. -/
theorem HexCenter_HexCorners_test_witness :
    (flatTestGrid (Real.sqrt 3) Real.sin Real.cos Real.pi Make64_2_32).HexAt
        (MakePoint 666 666) = MakeHex 22 26
      ∧ |((flatTestGrid (Real.sqrt 3) Real.sin Real.cos Real.pi Make64_2_32).HexCenter
            ((flatTestGrid (Real.sqrt 3) Real.sin Real.cos Real.pi Make64_2_32).HexAt
              (MakePoint 666 666))).x - 670| ≤ 1 / 100000
      ∧ |((flatTestGrid (Real.sqrt 3) Real.sin Real.cos Real.pi Make64_2_32).HexCenter
            ((flatTestGrid (Real.sqrt 3) Real.sin Real.cos Real.pi Make64_2_32).HexAt
              (MakePoint 666 666))).y - 66085880 / 100000| ≤ 1 / 100000
      ∧ ∀ i : Fin 6,
          |((flatTestGrid (Real.sqrt 3) Real.sin Real.cos Real.pi Make64_2_32).HexCorners
              ((flatTestGrid (Real.sqrt 3) Real.sin Real.cos Real.pi Make64_2_32).HexAt
                (MakePoint 666 666)) i).x
              - ![690, 680, 660, 650, 660, 680] i| ≤ 1 / 100000
            ∧ |((flatTestGrid (Real.sqrt 3) Real.sin Real.cos Real.pi Make64_2_32).HexCorners
              ((flatTestGrid (Real.sqrt 3) Real.sin Real.cos Real.pi Make64_2_32).HexAt
                (MakePoint 666 666)) i).y
              - ![66085880 / 100000, 66951905 / 100000, 66951905 / 100000, 66085880 / 100000,
                  65219854 / 100000, 65219854 / 100000] i| ≤ 1 / 100000 :=
  HexCenter_HexCorners_test (Real.sqrt 3) Real.sin Real.cos Real.pi Make64_2_32
    approxSqrt3_real approxFlatTables_real

/-! ### Evaluation of `MakeRegion` -/

/-- C20. Evaluation of `MakeRegion` on the pointy grid with origin (100, 20),
size (20, 10) and the triangle (100, 12), (101, 5), (103, 5): the region is
built, the hex of the vertex (100, 12) is (0, 0), that vertex is not inside the
six-corner ring of its hex by `pointInGeometry`, and (0, 0) is not in the
region. -/
theorem MakeRegion_misses_vertex_hex :
    regionHexes (samplePointyGrid.MakeRegion ratNextUp alignedPolygon)
        = some [⟨0, -1⟩, ⟨1, -1⟩]
      ∧ samplePointyGrid.HexAt (MakePoint 100 12) = ⟨0, 0⟩
      ∧ isOkTrue (pointInGeometry ratNextUp
          (List.ofFn (samplePointyGrid.HexCorners ⟨0, 0⟩)) (MakePoint 100 12)) = false := by
  decide!

/-- In exact arithmetic, on the flat grid of the tests (97/56 for the square
root of 3, exact sines and cosines), the region of the ring of the region test
has seven hexes: the corner (60, ·) of the hex (2, 1) has exactly the `x` of
the vertex (60, 40), which the slope comparison counts as a crossing. -/
theorem testPolygon_exact_region :
    regionHexes (sampleGrid.MakeRegion ratNextUp testPolygon)
      = some [⟨0, 0⟩, ⟨0, 1⟩, ⟨1, 0⟩, ⟨1, 1⟩, ⟨1, 2⟩, ⟨2, 0⟩, ⟨2, 1⟩] := by
  decide!

/-- C13. On the flat grid with origin (10, 20) and size (20, 10), `MakeRegion`
of the ring (20, 19.99999), (20, 40), (40, 60), (60, 40), (50, 30), (40, 40)
yields exactly the six hexes (0,0), (0,1), (1,0), (1,1), (1,2), (2,0) in that
order, and their codes are 0, 2, 1, 3, 9, 4.  The orientation is taken in its
`float64` values, with the tables of Go's `math.Sin` and `math.Cos` and also
with the correctly rounded tables. -/
theorem MakeRegion_test_region :
    regionHexes ((float64TestGrid goSinuses goCosinuses).MakeRegion ratNextUp
        float64TestPolygon)
      = some [⟨0, 0⟩, ⟨0, 1⟩, ⟨1, 0⟩, ⟨1, 1⟩, ⟨1, 2⟩, ⟨2, 0⟩]
    ∧ regionHexes ((float64TestGrid roundedSinuses roundedCosinuses).MakeRegion ratNextUp
        float64TestPolygon)
      = some [⟨0, 0⟩, ⟨0, 1⟩, ⟨1, 0⟩, ⟨1, 1⟩, ⟨1, 2⟩, ⟨2, 0⟩]
    ∧ ([⟨0, 0⟩, ⟨0, 1⟩, ⟨1, 0⟩, ⟨1, 1⟩, ⟨1, 2⟩, ⟨2, 0⟩] : List Hex).map
        (float64TestGrid goSinuses goCosinuses).HexToCode
      = [Except.ok 0, Except.ok 2, Except.ok 1, Except.ok 3, Except.ok 9, Except.ok 4] := by
  refine ⟨?_, ?_, rfl⟩
  · decide!
  · decide!

end Hexgrid
